import Mathlib

/-!
Verification development for the DataAnalysisAgent repository
(conversation orchestration and session/dataset store).

The Python source is shallowly embedded: pure functions become Lean
functions, the stateful `SessionService` becomes explicit state passing
over a `StoreState` record (in-memory caches, the session index, and the
relevant parts of the filesystem: session body files, externalized
dataset CSV files, and original uploaded files).  The pandas CSV layer is
modelled column-wise over a small cell algebra (integers, strings,
nulls), matching the way the store serializes tables
(`df.to_csv` / `pd.read_csv` with per-column integer type inference and
empty fields read back as NaN).  File writes that the source guards with
try/except and a boolean result (`_save_dataset_to_csv`) take an explicit
success oracle; other writes are modelled as succeeding.
-/

namespace S2P

set_option maxRecDepth 16000

/-! ## Association lists (Python dict semantics: insertion order kept,
assignment replaces in place, deletion removes the key) -/
def alookup {α : Type} : List (String × α) → String → Option α
  | [], _ => none
  | (k, v) :: r, q => if k = q then some v else alookup r q

def ainsert {α : Type} : List (String × α) → String → α → List (String × α)
  | [], k, v => [(k, v)]
  | (k', v') :: r, k, v =>
      if k' = k then (k, v) :: r else (k', v') :: ainsert r k v

def aremove {α : Type} (l : List (String × α)) (k : String) : List (String × α) :=
  l.filter (fun p => p.1 ≠ k)

/-! ## Cells, tables and the CSV bulk-payload encoding

A `Table` is the store's column-oriented exchange format
(`{column: [values]}` dictionaries).  `CsvFile` models the content of an
externalized dataset file: one list of textual fields per column, the
way `df.to_csv` lays the data out and `pd.read_csv` reads it back.

Reading back follows pandas column type inference: a column whose every
field parses as an integer (with no missing value) comes back as
integers; a column whose fields are all float-shaped numbers or NA
tokens would come back as float64, and a column of True/False tokens as
booleans — both are outside this cell algebra (integers, strings,
missing), so the loader model returns `none` for such files rather than
misreport them; every other column is an object column whose fields stay
strings, with pandas' default NA tokens (the empty field, `NaN`, `None`,
`NA`, ...) becoming missing values.  `_load_dataset_from_csv` applies no
missing-value fill; only `DataLoader.load_data` fills numeric nulls with
0 and other nulls with the empty string. -/
inductive Cell where
  | cInt (n : Int)
  | cStr (s : String)
  | cNull
deriving DecidableEq

abbrev Table := List (String × List Cell)

abbrev CsvFile := List (String × List String)

def digitChar (d : Nat) : Char := Char.ofNat (48 + d)

def digitVal (c : Char) : Option Nat :=
  if 48 ≤ c.toNat ∧ c.toNat ≤ 57 then some (c.toNat - 48) else none

def natToStrAux : Nat → Nat → List Char
  | 0, _ => []
  | fuel + 1, n =>
      if n < 10 then [digitChar n]
      else natToStrAux fuel (n / 10) ++ [digitChar (n % 10)]

def natToStr (n : Nat) : List Char := natToStrAux (n + 1) n

def intToStr (n : Int) : String :=
  if n < 0 then ⟨'-' :: natToStr n.natAbs⟩ else ⟨natToStr n.natAbs⟩

def parseNatAux : List Char → Nat → Option Nat
  | [], acc => some acc
  | c :: cs, acc =>
      match digitVal c with
      | some d => parseNatAux cs (acc * 10 + d)
      | none => none

def parseNat (l : List Char) : Option Nat :=
  if l.isEmpty then none else parseNatAux l 0

def parseIntStr (s : String) : Option Int :=
  match s.data with
  | [] => none
  | c :: rest =>
      if c = '-' then (parseNat rest).map (fun n => -(n : Int))
      else (parseNat (c :: rest)).map (fun n => (n : Int))

def encodeCell : Cell → String
  | .cInt n => intToStr n
  | .cStr s => s
  | .cNull => ""

/-- The default NA tokens `pd.read_csv` converts to missing values
(pandas' documented `na_values` default list). -/
def naTokens : List String :=
  ["", "#N/A", "#N/A N/A", "#NA", "-1.#IND", "-1.#QNAN", "-NaN", "-nan",
   "1.#IND", "1.#QNAN", "<NA>", "N/A", "NA", "NULL", "NaN", "None",
   "n/a", "nan", "null"]

def isNaToken (s : String) : Bool := naTokens.contains s

/-- The tokens the `read_csv` parser recognizes as booleans. -/
def boolTokens : List String :=
  ["True", "TRUE", "true", "False", "FALSE", "false"]

def isBoolToken (s : String) : Bool := boolTokens.contains s

def isDigitChar (c : Char) : Bool := (digitVal c).isSome

def dropSign : List Char → List Char
  | [] => []
  | c :: cs => if c = '+' || c = '-' then cs else c :: cs

/-- Consume a decimal mantissa (`digits`, `digits.digits?` or
`.digits`, at least one digit) and return the rest. -/
def splitMantissa (l : List Char) : Option (List Char) :=
  let intPart := l.takeWhile isDigitChar
  let r1 := l.dropWhile isDigitChar
  match r1 with
  | '.' :: r2 =>
      let fracPart := r2.takeWhile isDigitChar
      if intPart.isEmpty && fracPart.isEmpty then none
      else some (r2.dropWhile isDigitChar)
  | _ => if intPart.isEmpty then none else some r1

/-- Strings the `read_csv` numeric parser accepts as floating-point:
an optional sign, a decimal mantissa, an optional exponent, or an
infinity token. -/
def isFloatShaped (s : String) : Bool :=
  (match splitMantissa (dropSign s.data) with
   | none => false
   | some rest =>
       match rest with
       | [] => true
       | c :: cs =>
           (c = 'e' || c = 'E') &&
           (let cs2 := dropSign cs
            !cs2.isEmpty && cs2.all isDigitChar)) ||
  (let l := (dropSign s.data).map Char.toLower
   l = ['i', 'n', 'f'] || l = ['i', 'n', 'f', 'i', 'n', 'i', 't', 'y'])

/-- Column type inference of `pd.read_csv`: all-integer columns load as
integers; columns that pandas would load as float64 (all fields numeric
or NA — this includes an integer column with a missing value) or as
booleans carry cell kinds outside this model's cell algebra and decode
to `none`; any other column is an object column whose NA tokens become
missing values and whose other fields stay strings. -/
def decodeColumn (fields : List String) : Option (List Cell) :=
  if fields.all (fun f => (parseIntStr f).isSome) then
    some (fields.map (fun f => Cell.cInt ((parseIntStr f).getD 0)))
  else if fields.all (fun f => isNaToken f || isFloatShaped f) then
    none
  else if fields.all (fun f => isNaToken f || isBoolToken f) then
    none
  else
    some (fields.map (fun f => if isNaToken f then Cell.cNull else Cell.cStr f))

def saveCsv (t : Table) : CsvFile :=
  t.map (fun p => (p.1, p.2.map encodeCell))

def loadCsv : CsvFile → Option Table
  | [] => some []
  | p :: rest =>
      match decodeColumn p.2, loadCsv rest with
      | some cells, some t => some ((p.1, cells) :: t)
      | _, _ => none

/-- The missing-value fill performed by `DataLoader.load_data` only:
numeric columns fill null with 0, other columns with the empty string. -/
def fillNa (t : Table) : Table :=
  t.map (fun p =>
    let numeric := p.2.all (fun c => match c with | .cStr _ => false | _ => true)
    (p.1, p.2.map (fun c =>
      if c = Cell.cNull then (if numeric then Cell.cInt 0 else Cell.cStr "") else c)))

/-! ## The session/dataset store (`SessionService`)

State components: the session index (`sessions_meta["sessions"]`), the
two in-memory caches, and the filesystem pieces the service touches —
one body file per session, one CSV bulk file per dataset id, and the
original uploaded files (read back through `DataLoader`).  The dataset
cache is keyed by the literal string `f"{session_id}_{dataset_id}"` as
in the source. -/
structure SessionMeta where
  id : String
  name : String
  createdAt : Nat
  updatedAt : Nat
deriving DecidableEq

/-- A dataset record: both the caller-supplied dict passed to
`add_dataset` / embedded in history items (which may carry `data` and
`path`) and the stored metadata (which never carries `data`). Absent
dict keys are `none`. -/
structure DatasetRec where
  name : String
  dtype : String
  preview : List (List (String × Cell))
  path : Option String := none
  data : Option Table := none
  dataFile : Option String := none
deriving DecidableEq

structure HistoryItem where
  hid : String
  role : String
  content : String
  resultType : Option String := none
  datasets : Option (List (String × DatasetRec)) := none
  generatedCode : Option String := none
deriving DecidableEq

structure SessionData where
  datasets : List (String × DatasetRec)
  history : List HistoryItem
deriving DecidableEq

def emptySessionData : SessionData := ⟨[], []⟩

structure StoreState where
  sessionsMeta : List SessionMeta
  sessionsCache : List (String × SessionData)
  datasetsCache : List (String × Table)
  sessionFiles : List (String × SessionData)
  datasetFiles : List (String × CsvFile)
  uploadFiles : List (String × CsvFile)
deriving DecidableEq

/-- A freshly constructed service over an empty data directory
(`__init__` with no prior `sessions_meta.json`). -/
def initStore (uploads : List (String × CsvFile)) : StoreState :=
  ⟨[], [], [], [], [], uploads⟩

/-- Model of `SessionService.__init__` over an existing data directory: the
session index is reloaded from disk and both in-memory caches start
empty. -/
def restartService (st : StoreState) : StoreState :=
  { st with sessionsCache := [], datasetsCache := [] }

def datasetPathOf (did : String) : String := "datasets/" ++ did ++ ".csv"

/-- Model of `get_session`: cache hit, else load the body file (a missing or
unreadable file yields the empty body) and warm the cache. -/
def getSession (st : StoreState) (sid : String) : SessionData × StoreState :=
  match alookup st.sessionsCache sid with
  | some d => (d, st)
  | none =>
      let d := (alookup st.sessionFiles sid).getD emptySessionData
      (d, { st with sessionsCache := ainsert st.sessionsCache sid d })

/-- Model of `_save_dataset_to_csv`: pandas `to_csv` may fail (the source catches
the exception and returns False); the success of the write is an
explicit oracle argument. -/
def saveDatasetToCsv (st : StoreState) (did : String) (data : Table) (ok : Bool) :
    Bool × StoreState :=
  if ok then (true, { st with datasetFiles := ainsert st.datasetFiles did (saveCsv data) })
  else (false, st)

/-- Model of `_load_dataset_from_csv`: none when the bulk file is
absent, or when its columns fall outside the model's cell algebra. -/
def loadDatasetFromCsv (st : StoreState) (did : String) : Option Table :=
  (alookup st.datasetFiles did).bind loadCsv

/-- Model of `DataLoader(path).load_data()` then column-to-list conversion, as in
the `path` branch of `get_dataset_data`: read the original file and
apply the missing-value fill; none when the file does not exist (the
`FileNotFoundError` is caught by the caller). -/
def loadFromUpload (st : StoreState) (path : String) : Option Table :=
  (alookup st.uploadFiles path).bind (fun f => (loadCsv f).map fillNa)

def createSession (st : StoreState) (sid name : String) (now : Nat) :
    SessionMeta × StoreState :=
  let meta : SessionMeta := ⟨sid, name, now, now⟩
  let st1 := { st with sessionsMeta := st.sessionsMeta ++ [meta] }
  let st2 := { st1 with sessionFiles := ainsert st1.sessionFiles sid emptySessionData }
  (meta, { st2 with sessionsCache := ainsert st2.sessionsCache sid emptySessionData })

/-- Model of `delete_session`: filter the index, remove the body file, then ask
`get_session` (after the file is already gone!) for the dataset ids
whose bulk files to remove, and finally evict the session cache entry.
Always returns True. -/
def deleteSession (st : StoreState) (sid : String) : Bool × StoreState :=
  let st1 := { st with sessionsMeta := st.sessionsMeta.filter (fun m => m.id ≠ sid) }
  let st2 := { st1 with sessionFiles := aremove st1.sessionFiles sid }
  let (sdata, st3) := getSession st2 sid
  let st4 := { st3 with
    datasetFiles := (sdata.datasets.map Prod.fst).foldl aremove st3.datasetFiles }
  (true, { st4 with sessionsCache := aremove st4.sessionsCache sid })

def touchMeta : List SessionMeta → String → Nat → List SessionMeta
  | [], _, _ => []
  | m :: r, sid, now =>
      if m.id = sid then { m with updatedAt := now } :: r
      else m :: touchMeta r sid now

/-- Model of `add_dataset`: metadata keeps name/type/preview (and the upload path
when present); an inline payload is externalized to a CSV bulk file,
and `data_file` is recorded only when that write succeeds.  The session
body is then written to cache and file, and `updated_at` refreshed. -/
def addDataset (st : StoreState) (sid did : String) (ds : DatasetRec)
    (csvOk : Bool) (now : Nat) : StoreState :=
  let p := getSession st sid
  let sdata := p.1
  let st1 := p.2
  let meta0 : DatasetRec :=
    { name := ds.name, dtype := ds.dtype, preview := ds.preview, path := ds.path }
  let q : DatasetRec × StoreState :=
    match ds.data with
    | some tbl =>
        let r := saveDatasetToCsv st1 did tbl csvOk
        (if r.1 then { meta0 with dataFile := some (datasetPathOf did) } else meta0, r.2)
    | none => (meta0, st1)
  let sdata1 := { sdata with datasets := ainsert sdata.datasets did q.1 }
  let st2 := { q.2 with
    sessionsCache := ainsert q.2.sessionsCache sid sdata1,
    sessionFiles := ainsert q.2.sessionFiles sid sdata1 }
  { st2 with sessionsMeta := touchMeta st2.sessionsMeta sid now }

/-- The per-dataset externalization loop inside `add_history`: every
embedded dataset that carries `data` is replaced by metadata (name,
type, preview, and `data_file` when the CSV write succeeded); entries
without `data` are kept verbatim. -/
def externalizeHistDatasets (csvOk : String → Bool) :
    StoreState → List (String × DatasetRec) → List (String × DatasetRec) × StoreState
  | st, [] => ([], st)
  | st, (did, ds) :: rest =>
      match ds.data with
      | some tbl =>
          let r := saveDatasetToCsv st did tbl (csvOk did)
          let meta : DatasetRec :=
            { name := ds.name, dtype := ds.dtype, preview := ds.preview,
              dataFile := if r.1 then some (datasetPathOf did) else none }
          let q := externalizeHistDatasets csvOk r.2 rest
          ((did, meta) :: q.1, q.2)
      | none =>
          let q := externalizeHistDatasets csvOk st rest
          ((did, ds) :: q.1, q.2)

def addHistory (st : StoreState) (sid : String) (item : HistoryItem)
    (csvOk : String → Bool) (now : Nat) : StoreState :=
  let p := getSession st sid
  let sdata := p.1
  let st1 := p.2
  let q : HistoryItem × StoreState :=
    match item.datasets with
    | some dsl =>
        let r := externalizeHistDatasets csvOk st1 dsl
        ({ item with datasets := some r.1 }, r.2)
    | none => (item, st1)
  let sdata1 := { sdata with history := sdata.history ++ [q.1] }
  let st2 := { q.2 with
    sessionsCache := ainsert q.2.sessionsCache sid sdata1,
    sessionFiles := ainsert q.2.sessionFiles sid sdata1 }
  { st2 with sessionsMeta := touchMeta st2.sessionsMeta sid now }

/-- Model of `get_dataset_data`: dataset cache first; then the session's dataset
metadata; then the bulk CSV if `data_file` is recorded (an empty load is
falsy in the source and yields None), else the original upload if
`path` is recorded; loaded payloads populate the cache. -/
def getDatasetData (st : StoreState) (sid did : String) : Option Table × StoreState :=
  let key := sid ++ "_" ++ did
  match alookup st.datasetsCache key with
  | some d => (some d, st)
  | none =>
      let p := getSession st sid
      let sdata := p.1
      let st1 := p.2
      match alookup sdata.datasets did with
      | none => (none, st1)
      | some meta =>
          if meta.dataFile.isSome then
            match loadDatasetFromCsv st1 did with
            | some d =>
                if d.isEmpty then (none, st1)
                else (some d, { st1 with datasetsCache := ainsert st1.datasetsCache key d })
            | none => (none, st1)
          else
            match meta.path with
            | some pth =>
                match loadFromUpload st1 pth with
                | some d =>
                    (some d, { st1 with datasetsCache := ainsert st1.datasetsCache key d })
                | none => (none, st1)
            | none => (none, st1)

def listSessions (st : StoreState) : List SessionMeta := st.sessionsMeta

def getDatasets (st : StoreState) (sid : String) : List (String × DatasetRec) :=
  (getSession st sid).1.datasets

def getHistory (st : StoreState) (sid : String) : List HistoryItem :=
  (getSession st sid).1.history

/-! ## Reachability through store operations, and the dataset
resolvability invariant -/
inductive StoreOp where
  | create (sid name : String) (now : Nat)
  | addDs (sid did : String) (ds : DatasetRec) (csvOk : Bool) (now : Nat)
  | addHist (sid : String) (item : HistoryItem) (csvOk : String → Bool) (now : Nat)
  | delete (sid : String)

def applyOp (st : StoreState) : StoreOp → StoreState
  | .create sid name now => (createSession st sid name now).2
  | .addDs sid did ds ok now => addDataset st sid did ds ok now
  | .addHist sid item ok now => addHistory st sid item ok now
  | .delete sid => (deleteSession st sid).2

def runOps (st : StoreState) : List StoreOp → StoreState
  | [] => st
  | op :: rest => runOps (applyOp st op) rest

/-- All dataset references a persisted session body makes: its
`datasets` map plus the datasets embedded in history items. -/
def histRefs (h : List HistoryItem) : List (String × DatasetRec) :=
  (h.map (fun i => i.datasets.getD [])).flatten

def bodyRefs (b : SessionData) : List (String × DatasetRec) :=
  b.datasets ++ histRefs b.history

/-- A referenced dataset resolves to a retrievable payload: the original
uploaded file still exists at the recorded path, or the externalized
bulk-payload file for the dataset id exists. -/
def resolvable (st : StoreState) (did : String) (m : DatasetRec) : Prop :=
  (∃ p, m.path = some p ∧ (alookup st.uploadFiles p).isSome = true) ∨
  (m.dataFile.isSome = true ∧ (alookup st.datasetFiles did).isSome = true)

/-- The claimed invariant: every dataset id referenced from any
persisted session body (datasets map or history item) resolves. -/
def storeInv (st : StoreState) : Prop :=
  ∀ sid b, alookup st.sessionFiles sid = some b →
    ∀ r ∈ bodyRefs b, resolvable st r.1 r.2

/-- Auxiliary invariant: every session-cache entry agrees with the
persisted body file (all writers update both together). -/
def cacheAgrees (st : StoreState) : Prop :=
  ∀ sid d, alookup st.sessionsCache sid = some d →
    d = (alookup st.sessionFiles sid).getD emptySessionData

def ownedBy (st : StoreState) (did sid : String) : Prop :=
  ∃ b, alookup st.sessionFiles sid = some b ∧ did ∈ (bodyRefs b).map Prod.fst

/-- Auxiliary invariant: a dataset id is referenced by at most one
session body (dataset ids are uuid4-fresh in the source). -/
def uniqueOwner (st : StoreState) : Prop :=
  ∀ did s1 s2, ownedBy st did s1 → ownedBy st did s2 → s1 = s2

def strongInv (st : StoreState) : Prop :=
  storeInv st ∧ cacheAgrees st ∧ uniqueOwner st

/-- A dataset id already in use: its bulk file exists or some session
body references it. -/
def trackedDid (st : StoreState) (did : String) : Prop :=
  (alookup st.datasetFiles did).isSome = true ∨ ∃ sid, ownedBy st did sid

def opDids : StoreOp → List String
  | .addDs _ did _ _ _ => [did]
  | .addHist _ item _ _ => (item.datasets.getD []).map Prod.fst
  | _ => []

/-- The conditions under which an operation keeps every reference
resolvable: bulk-CSV writes succeed, an added dataset carries an inline
payload or a path to an existing upload, and history-embedded datasets
carry inline payloads. -/
def goodOp (st : StoreState) : StoreOp → Prop
  | .addDs _ _ ds ok _ =>
      ok = true ∧
      (ds.data.isSome = true ∨
        ∃ p, ds.path = some p ∧ (alookup st.uploadFiles p).isSome = true)
  | .addHist _ item ok _ =>
      (∀ pr ∈ item.datasets.getD [], pr.2.data.isSome = true) ∧ (∀ d, ok d = true)
  | _ => True

/-- Sequential conditions: each op is good for the state it runs in and
introduces only globally fresh dataset ids. -/
def goodOps : StoreState → List StoreOp → Prop
  | _, [] => True
  | st, op :: rest =>
      goodOp st op ∧ (∀ d ∈ opDids op, ¬ trackedDid st d) ∧
      goodOps (applyOp st op) rest

/-- What each operation must guarantee: the strong invariant again,
dataset-id usage growing only by the ids the op introduces, and the
upload files untouched. -/
def opPost (st st' : StoreState) (intro' : List String) : Prop :=
  strongInv st' ∧ (∀ d, trackedDid st' d → trackedDid st d ∨ d ∈ intro') ∧
  st'.uploadFiles = st.uploadFiles

/-- The dataset metadata `add_dataset` records: name/type/preview, the
upload path when the caller passed one, never the inline payload, and a
`data_file` reference exactly when the payload existed and its CSV
write succeeded. -/
def addMetaOf (ds : DatasetRec) (did : String) (saved : Bool) : DatasetRec :=
  { name := ds.name, dtype := ds.dtype, preview := ds.preview, path := ds.path,
    data := none, dataFile := if saved then some (datasetPathOf did) else none }

/-! ## The intent router (`UserIntentAgent`)

`execute` sends the prompt to the model, parses the reply into a JSON
object (`_extract_json_from_response`, empty object on failure), falls
back to the keyword scorer when the object is empty or lacks the
`agent_type` key, and finally sets `user_prompt` on the result.  The
parsed reply is the embedding boundary for the external model; the
post-parse routing logic is modelled exactly. -/
inductive JValue where
  | jStr (s : String)
  | jNum (q : ℚ)
deriving DecidableEq

abbrev JObj := List (String × JValue)

/-- The fixed `AGENT_TYPES` table: category ids in declaration order
with their keyword lists. -/
def agentKeywords : List (String × List String) :=
  [("data_analysis",
    ["分析", "统计", "计算", "相关性", "聚类", "回归", "预测", "分组", "汇总", "平均", "求和"]),
   ("data_visualization",
    ["可视化", "图表", "绘制", "画图", "柱状图", "折线图", "饼图", "散点图", "热力图", "展示"]),
   ("data_analysis_plan",
    ["方案", "计划", "建议", "步骤", "流程", "思路", "策略", "规划", "设计", "指导"]),
   ("data_analysis_conclusion",
    ["结论", "见解", "洞察", "发现", "总结", "趋势", "特点", "规律", "意义", "启示", "解读"])]

def agentTypeOrder : List String := agentKeywords.map Prod.fst

def agentDisplayName (t : String) : String :=
  if t = "data_analysis" then "数据分析代理"
  else if t = "data_visualization" then "数据可视化代理"
  else if t = "data_analysis_plan" then "数据分析方案生成代理"
  else "数据分析结论代理"

/-- Python substring containment (`needle in haystack`). -/
def isSubstr (needle : List Char) : List Char → Bool
  | [] => needle.isEmpty
  | c :: cs => needle.isPrefixOf (c :: cs) || isSubstr needle cs

def toLowerL (s : String) : List Char := s.data.map Char.toLower

/-- Keyword hits: how many of the category's keywords occur in the
lower-cased prompt. -/
def hitsFor (prompt : String) (kws : List String) : Nat :=
  (kws.filter (fun k => isSubstr (toLowerL k) (toLowerL prompt))).length

/-- The normalized score: `score / len(keywords) if score > 0 else 0`. -/
def normScore (prompt : String) (kws : List String) : ℚ :=
  if 0 < hitsFor prompt kws then (hitsFor prompt kws : ℚ) / (kws.length : ℚ) else 0

def scoresFor (prompt : String) : List (String × ℚ) :=
  agentKeywords.map (fun p => (p.1, normScore prompt p.2))

/-- Python `max(scores, key=scores.get)`: iterate in insertion order,
replace the current best only on a strictly greater value, so the first
maximal element wins. -/
def pickMaxAux : (String × ℚ) → List (String × ℚ) → String × ℚ
  | best, [] => best
  | best, x :: xs => pickMaxAux (if best.2 < x.2 then x else best) xs

def defaultIntentResult : JObj :=
  [("agent_type", .jStr "data_analysis"), ("confidence", .jNum (1 / 2)),
   ("explanation", .jStr "未找到明确的意图指示，默认使用数据分析代理")]

/-- Model of `_rule_based_intent_recognition`. -/
def ruleBasedIntentRecognition (userPrompt : String) : JObj :=
  match scoresFor userPrompt with
  | [] => defaultIntentResult
  | s :: rest =>
      let best := pickMaxAux s rest
      if best.2 = 0 then defaultIntentResult
      else
        [("agent_type", .jStr best.1), ("confidence", .jNum best.2),
         ("explanation", .jStr ("根据关键词匹配，识别为" ++ agentDisplayName best.1))]

/-- The routing step of `UserIntentAgent.execute` after the model reply
has been parsed: fall back to the rule-based scorer when the parsed
object is empty (parse failure) or has no `agent_type` key, then attach
the prompt. -/
def intentExecute (parsed : JObj) (userPrompt : String) : JObj :=
  let result :=
    if parsed.isEmpty || (alookup parsed "agent_type").isNone then
      ruleBasedIntentRecognition userPrompt
    else parsed
  ainsert result "user_prompt" (.jStr userPrompt)

/-! ## The code-synthesis execution step (`DataAnalysisAgent.execute`,
steps 5 onward)

The generated module's `analyze_data` callable is the attacker-supplied
boundary: it is an arbitrary function from the input tables to either a
Python value or a raised exception.  The agent writes the code to a
temporary module, calls the function inside `try:` with only a
`finally:` clause (no `except`), validates that the result is a dict of
DataFrames (raising `TypeError` itself otherwise), converts each value
with `to_dict(orient='list')`, and unlinks the temp file on every exit
path. -/
structure PyExc where
  excType : String
  msg : String
deriving DecidableEq

inductive PyObj where
  | pyDict (entries : List (String × PyObj))
  | pyDataFrame (t : Table)
  | pyOther (tag : String)

/-- The result-validation loop: the first non-DataFrame value raises a
`TypeError` naming its key, otherwise each DataFrame becomes its
column-oriented dict. -/
def validateEntries : List (String × PyObj) → Except PyExc (List (String × Table))
  | [] => .ok []
  | (k, .pyDataFrame t) :: rest => (validateEntries rest).map (fun l => (k, t) :: l)
  | (k, _) :: _ => .error ⟨"TypeError", "分析结果'" ++ k ++ "'必须是DataFrame类型"⟩

structure SandboxOutcome where
  result : Except PyExc (List (String × Table))
  tempFileRemoved : Bool

/-- Steps 5–6 of `DataAnalysisAgent.execute`: run the generated
`analyze_data` on the input tables and validate the result.  There is
no `except` clause: an exception from the generated code propagates
unchanged; the `finally:` removes the temp module file on every path. -/
def runGeneratedAnalysis (analyzeData : List Table → Except PyExc PyObj)
    (dfs : List Table) : SandboxOutcome :=
  match analyzeData dfs with
  | .error e => ⟨.error e, true⟩
  | .ok (.pyDict entries) => ⟨validateEntries entries, true⟩
  | .ok _ => ⟨.error ⟨"TypeError", "分析函数必须返回字典类型的结果"⟩, true⟩

/-! ## Model-reply code extraction (`_extract_code_from_response`)

The fence scanner models `re.findall` for
`(three backticks)(?:python)?\s*([\s\S]*?)\s*(three backticks)`:
matches are found left to right; the lazy group makes each captured
block run to the next closing fence with surrounding whitespace
stripped, and scanning resumes after the closing fence.  The function
scanner models the second pattern: a `def analyze_data(dfs)` header
followed lazily by the nearest `return`/`pass`.  Both use explicit fuel
(initialized to the input length, which the strictly shrinking rest
never exhausts) so that the definitions compute by reduction. -/
def wsChar (c : Char) : Bool :=
  c = ' ' || c = '\t' || c = '\n' || c = '\r' || c = '\x0b' || c = '\x0c'

def fenceChars : List Char := ['`', '`', '`']

def pyTagChars : List Char := ['p', 'y', 't', 'h', 'o', 'n']

/-- Split the input at the first fence occurrence: the text before it
and the rest after the three fence characters. -/
def splitAtFence : List Char → Option (List Char × List Char)
  | [] => none
  | c :: cs =>
      if fenceChars.isPrefixOf (c :: cs) then some ([], cs.drop 2)
      else
        match splitAtFence cs with
        | some (pre, post) => some (c :: pre, post)
        | none => none

def dropTrailingWs (l : List Char) : List Char :=
  (l.reverse.dropWhile wsChar).reverse

def findFencedAux : Nat → List Char → List (List Char)
  | 0, _ => []
  | _, [] => []
  | fuel + 1, c :: cs =>
      if fenceChars.isPrefixOf (c :: cs) then
        let body := cs.drop 2
        let body1 := if pyTagChars.isPrefixOf body then body.drop 6 else body
        let body2 := body1.dropWhile wsChar
        match splitAtFence body2 with
        | some (content, rest) => dropTrailingWs content :: findFencedAux fuel rest
        | none => []
      else findFencedAux fuel cs

/-- All fenced code blocks of the reply, in order. -/
def findFenced (l : List Char) : List (List Char) := findFencedAux l.length l

def defChars : List Char := ['d', 'e', 'f']

def analyzeNameChars : List Char :=
  ['a', 'n', 'a', 'l', 'y', 'z', 'e', '_', 'd', 'a', 't', 'a']

def dfsChars : List Char := ['d', 'f', 's']

def returnChars : List Char := ['r', 'e', 't', 'u', 'r', 'n']

def passChars : List Char := ['p', 'a', 's', 's']

def eatP (p l : List Char) : Option (List Char) :=
  if p.isPrefixOf l then some (l.drop p.length) else none

/-- Match the `def analyze_data ( dfs )` header at the current
position, returning the rest of the input. -/
def matchFnHead (l : List Char) : Option (List Char) :=
  match eatP defChars l with
  | none => none
  | some r1 =>
      if (r1.takeWhile wsChar).isEmpty then none
      else
        match eatP analyzeNameChars (r1.dropWhile wsChar) with
        | none => none
        | some r3 =>
            match eatP ['('] (r3.dropWhile wsChar) with
            | none => none
            | some r5 =>
                match eatP dfsChars (r5.dropWhile wsChar) with
                | none => none
                | some r7 => eatP [')'] (r7.dropWhile wsChar)

/-- Lazily consume up to the earliest `return` or `pass`. -/
def findTerm : List Char → Option (List Char)
  | [] => none
  | c :: cs =>
      if returnChars.isPrefixOf (c :: cs) then some ((c :: cs).drop 6)
      else if passChars.isPrefixOf (c :: cs) then some ((c :: cs).drop 4)
      else findTerm cs

def findFnDefsAux : Nat → List Char → List (List Char)
  | 0, _ => []
  | _, [] => []
  | fuel + 1, c :: cs =>
      match matchFnHead (c :: cs) with
      | some rest1 =>
          (match findTerm rest1 with
           | some rest2 =>
               ((c :: cs).take ((c :: cs).length - rest2.length)) ::
                 findFnDefsAux fuel rest2
           | none => [])
      | none => findFnDefsAux fuel cs

/-- All textual `analyze_data` function definitions in the reply. -/
def findFnDefs (l : List Char) : List (List Char) := findFnDefsAux l.length l

/-- Python `max(matches, key=len)`: first longest element wins. -/
def pickLongest : List Char → List (List Char) → List Char
  | best, [] => best
  | best, x :: xs => pickLongest (if best.length < x.length then x else best) xs

/-- Model of `_extract_code_from_response`: longest fenced block, else longest
textual `analyze_data` definition, else the raw reply verbatim. -/
def extractCodeFromResponse (resp : String) : String :=
  match findFenced resp.data with
  | m :: ms => ⟨pickLongest m ms⟩
  | [] =>
      match findFnDefs resp.data with
      | m :: ms => ⟨pickLongest m ms⟩
      | [] => resp

/-! ## Shared concrete instances for witnesses and counterexamples -/
def keywordsOf (t : String) : List String := (alookup agentKeywords t).getD []

/-- A generated dataset payload carrying a string column with one
missing value, as produced by an analysis handler. -/
def demoDataset : DatasetRec :=
  { name := "结果", dtype := "generated", preview := [],
    data := some [("a", [Cell.cStr "x", Cell.cNull])] }

/-- Create a session `s1` and add dataset `d1` with the string/null
payload (the bulk-CSV write succeeding). -/
def demoStore : StoreState :=
  addDataset (createSession (initStore []) "s1" "n" 0).2 "s1" "d1" demoDataset true 1

def demoItem : HistoryItem := { hid := "h1", role := "user", content := "你好" }

/-- A model reply with two fenced python blocks of 50 and 120
characters. -/
def demoReply : String :=
  "```python\n" ++ ⟨List.replicate 50 'a'⟩ ++ "\n```\nsome text\n```python\n" ++
    ⟨List.replicate 120 'b'⟩ ++ "\n```"

theorem alookup_ainsert_self {α : Type} (l : List (String × α)) (k : String) (v : α) :
    alookup (ainsert l k v) k = some v := by
  induction l with
  | nil => simp [ainsert, alookup]
  | cons p r ih =>
      obtain ⟨k', v'⟩ := p
      by_cases h : k' = k
      · simp [ainsert, h, alookup]
      · simp [ainsert, h, alookup, ih]

theorem alookup_ainsert_ne {α : Type} (l : List (String × α)) (k q : String) (v : α)
    (hne : k ≠ q) : alookup (ainsert l k v) q = alookup l q := by
  induction l with
  | nil => simp [ainsert, alookup, hne]
  | cons p r ih =>
      obtain ⟨k', v'⟩ := p
      by_cases h : k' = k
      · subst h
        simp [ainsert, alookup, hne]
      · by_cases h2 : k' = q
        · subst h2
          simp [ainsert, h, alookup]
        · simp [ainsert, h, alookup, h2, ih]

theorem alookup_ainsert (l : List (String × α)) (k q : String) (v : α) :
    alookup (ainsert l k v) q = if k = q then some v else alookup l q := by
  by_cases h : k = q
  · subst h; simp [alookup_ainsert_self]
  · simp [h, alookup_ainsert_ne l k q v h]

theorem alookup_aremove {α : Type} (l : List (String × α)) (k q : String) :
    alookup (aremove l k) q = if q = k then none else alookup l q := by
  induction l with
  | nil => simp [aremove, alookup]
  | cons p r ih =>
      obtain ⟨k', v'⟩ := p
      have hrem : aremove ((k', v') :: r) k =
          if k' = k then aremove r k else (k', v') :: aremove r k := by
        by_cases h : k' = k <;> simp [aremove, List.filter_cons, h]
      by_cases h : k' = k
      · rw [hrem, if_pos h, ih]
        by_cases h2 : q = k
        · simp [h2]
        · have hne : ¬ (k' = q) := by
            rw [h]; intro hh; exact h2 hh.symm
          simp [h2, alookup, hne]
      · rw [hrem, if_neg h]
        by_cases h2 : k' = q
        · subst h2
          simp [alookup, h]
        · simp [alookup, h2, ih]

theorem mem_ainsert {α : Type} (l : List (String × α)) (k : String) (v : α)
    (x : String × α) (hx : x ∈ ainsert l k v) :
    x = (k, v) ∨ x ∈ l := by
  induction l with
  | nil => simp [ainsert] at hx; left; exact hx
  | cons p r ih =>
      obtain ⟨k', v'⟩ := p
      by_cases h : k' = k
      · subst h
        simp [ainsert] at hx
        rcases hx with h1 | h2
        · left; exact h1
        · right; exact List.mem_cons_of_mem _ h2
      · simp only [ainsert, if_neg h, List.mem_cons] at hx
        rcases hx with h1 | h2
        · right; subst h1; exact List.mem_cons_self _ _
        · rcases ih h2 with h3 | h4
          · left; exact h3
          · right; exact List.mem_cons_of_mem _ h4

theorem alookup_foldl_aremove {α : Type} (keys : List String)
    (l : List (String × α)) (q : String) :
    alookup (keys.foldl aremove l) q = if q ∈ keys then none else alookup l q := by
  induction keys generalizing l with
  | nil => simp
  | cons k ks ih =>
      simp only [List.foldl_cons, ih, List.mem_cons]
      by_cases hk : q = k
      · subst hk
        by_cases hm : q ∈ ks <;> simp [hm, alookup_aremove]
      · by_cases hm : q ∈ ks <;> simp [hm, hk, alookup_aremove]

theorem isSome_ainsert {α : Type} (l : List (String × α)) (k q : String) (v : α)
    (h : (alookup l q).isSome = true) : (alookup (ainsert l k v) q).isSome = true := by
  rw [alookup_ainsert]
  by_cases hk : k = q <;> simp [hk, h]

theorem natToStrAux_ne_nil (fuel n : Nat) (h : 0 < fuel) :
    natToStrAux fuel n ≠ [] := by
  cases fuel with
  | zero => omega
  | succ f =>
      by_cases h10 : n < 10 <;> simp [natToStrAux, h10]

theorem intToStr_ne_empty (n : Int) : intToStr n ≠ "" := by
  intro h
  by_cases hneg : n < 0
  · simp [intToStr, hneg] at h
    exact absurd (congrArg String.data h) (by simp)
  · simp only [intToStr, hneg, if_false] at h
    have := congrArg String.data h
    simp only [String.data] at this
    exact natToStrAux_ne_nil _ _ (Nat.succ_pos _) this

theorem bodyRefs_empty : bodyRefs emptySessionData = [] := rfl

theorem getSession_fst (st : StoreState) (sid : String) (hca : cacheAgrees st) :
    (getSession st sid).1 = (alookup st.sessionFiles sid).getD emptySessionData := by
  rw [getSession]
  cases h : alookup st.sessionsCache sid with
  | none => rfl
  | some d => exact hca sid d h

theorem getSession_sessionFiles (st : StoreState) (sid : String) :
    (getSession st sid).2.sessionFiles = st.sessionFiles := by
  rw [getSession]; cases alookup st.sessionsCache sid <;> rfl

theorem getSession_datasetFiles (st : StoreState) (sid : String) :
    (getSession st sid).2.datasetFiles = st.datasetFiles := by
  rw [getSession]; cases alookup st.sessionsCache sid <;> rfl

theorem getSession_uploadFiles (st : StoreState) (sid : String) :
    (getSession st sid).2.uploadFiles = st.uploadFiles := by
  rw [getSession]; cases alookup st.sessionsCache sid <;> rfl

theorem getSession_sessionsMeta (st : StoreState) (sid : String) :
    (getSession st sid).2.sessionsMeta = st.sessionsMeta := by
  rw [getSession]; cases alookup st.sessionsCache sid <;> rfl

theorem getSession_datasetsCache (st : StoreState) (sid : String) :
    (getSession st sid).2.datasetsCache = st.datasetsCache := by
  rw [getSession]; cases alookup st.sessionsCache sid <;> rfl

theorem getSession_cacheAgrees (st : StoreState) (sid : String) (hca : cacheAgrees st) :
    cacheAgrees (getSession st sid).2 := by
  rw [getSession]
  cases h : alookup st.sessionsCache sid with
  | none =>
      intro q d hq
      simp only at hq
      rw [alookup_ainsert] at hq
      by_cases hqs : sid = q
      · subst hqs
        simp at hq
        exact hq.symm
      · rw [if_neg hqs] at hq
        exact hca q d hq
  | some d => exact hca

/-- Resolvability is monotone in the file system: it survives any state
change that keeps the uploads and does not delete dataset files. -/
theorem resolvable_mono (st st' : StoreState) (did : String) (m : DatasetRec)
    (hup : st'.uploadFiles = st.uploadFiles)
    (hdf : ∀ k, (alookup st.datasetFiles k).isSome = true →
      (alookup st'.datasetFiles k).isSome = true)
    (h : resolvable st did m) : resolvable st' did m := by
  rcases h with ⟨p, hp, hex⟩ | ⟨hdfm, hex⟩
  · exact Or.inl ⟨p, hp, by rw [hup]; exact hex⟩
  · exact Or.inr ⟨hdfm, hdf _ hex⟩

theorem mem_bodyRefs_datasets {b : SessionData} {r : String × DatasetRec}
    (h : r ∈ b.datasets) : r ∈ bodyRefs b :=
  List.mem_append_left _ h

theorem ownedBy_of_mem {st : StoreState} {sid : String} {b : SessionData}
    (hb : alookup st.sessionFiles sid = some b) {did : String}
    (h : did ∈ (bodyRefs b).map Prod.fst) : ownedBy st did sid :=
  ⟨b, hb, h⟩

theorem createSession_preserves (st : StoreState) (sid name : String) (now : Nat)
    (hS : strongInv st) : opPost st (createSession st sid name now).2 [] := by
  obtain ⟨hinv, hca, huo⟩ := hS
  have howned : ∀ d s, ownedBy (createSession st sid name now).2 d s → ownedBy st d s := by
    intro d s ⟨b, hb, hm⟩
    have hb' : alookup (ainsert st.sessionFiles sid emptySessionData) s = some b := hb
    rw [alookup_ainsert] at hb'
    by_cases hss : sid = s
    · rw [if_pos hss] at hb'
      obtain rfl : emptySessionData = b := by injection hb'
      simp [bodyRefs_empty] at hm
    · rw [if_neg hss] at hb'
      exact ⟨b, hb', hm⟩
  refine ⟨⟨?_, ?_, ?_⟩, ?_, rfl⟩
  · intro q b hq r hr
    have hq' : alookup (ainsert st.sessionFiles sid emptySessionData) q = some b := hq
    rw [alookup_ainsert] at hq'
    by_cases hsq : sid = q
    · rw [if_pos hsq] at hq'
      obtain rfl : emptySessionData = b := by injection hq'
      simp [bodyRefs_empty] at hr
    · rw [if_neg hsq] at hq'
      exact resolvable_mono st _ r.1 r.2 rfl (fun k hk => hk) (hinv q b hq' r hr)
  · intro q d hq
    have hq' : alookup (ainsert st.sessionsCache sid emptySessionData) q = some d := hq
    rw [alookup_ainsert] at hq'
    show d = (alookup (ainsert st.sessionFiles sid emptySessionData) q).getD emptySessionData
    rw [alookup_ainsert]
    by_cases hsq : sid = q
    · rw [if_pos hsq] at hq'
      injection hq' with h
      simp [hsq, ← h]
    · rw [if_neg hsq] at hq'
      rw [if_neg hsq]
      exact hca q d hq'
  · intro d s1 s2 h1 h2
    exact huo d s1 s2 (howned d s1 h1) (howned d s2 h2)
  · intro d hd
    rcases hd with hf | ⟨s, hs⟩
    · exact Or.inl (Or.inl hf)
    · exact Or.inl (Or.inr ⟨s, howned d s hs⟩)

theorem addDataset_eq (st : StoreState) (sid did : String) (ds : DatasetRec)
    (ok : Bool) (now : Nat) :
    addDataset st sid did ds ok now =
      { sessionsMeta := touchMeta st.sessionsMeta sid now,
        sessionsCache := ainsert (getSession st sid).2.sessionsCache sid
          { datasets := ainsert (getSession st sid).1.datasets did
              (addMetaOf ds did (ds.data.isSome && ok)),
            history := (getSession st sid).1.history },
        datasetsCache := st.datasetsCache,
        sessionFiles := ainsert st.sessionFiles sid
          { datasets := ainsert (getSession st sid).1.datasets did
              (addMetaOf ds did (ds.data.isSome && ok)),
            history := (getSession st sid).1.history },
        datasetFiles :=
          match ds.data with
          | some tbl =>
              if ok then ainsert st.datasetFiles did (saveCsv tbl) else st.datasetFiles
          | none => st.datasetFiles,
        uploadFiles := st.uploadFiles } := by
  have hsf := getSession_sessionFiles st sid
  have hdf := getSession_datasetFiles st sid
  have huf := getSession_uploadFiles st sid
  have hsm := getSession_sessionsMeta st sid
  have hdc := getSession_datasetsCache st sid
  cases hdata : ds.data with
  | none =>
      simp [addDataset, addMetaOf, hdata, saveDatasetToCsv, hsf, hdf, huf, hsm, hdc]
  | some tbl =>
      cases ok with
      | false =>
          simp [addDataset, addMetaOf, hdata, saveDatasetToCsv, hsf, hdf, huf, hsm, hdc]
      | true =>
          simp [addDataset, addMetaOf, hdata, saveDatasetToCsv, hsf, hdf, huf, hsm, hdc]

theorem isSome_alookup_ainsert_rev {α : Type} {l : List (String × α)} {k q : String}
    {v : α} (h : (alookup (ainsert l k v) q).isSome = true) :
    q = k ∨ (alookup l q).isSome = true := by
  rw [alookup_ainsert] at h
  by_cases hk : k = q
  · exact Or.inl hk.symm
  · rw [if_neg hk] at h
    exact Or.inr h

theorem addDataset_preserves (st : StoreState) (sid did : String) (ds : DatasetRec)
    (now : Nat) (hS : strongInv st)
    (hgood : ds.data.isSome = true ∨
      ∃ p, ds.path = some p ∧ (alookup st.uploadFiles p).isSome = true)
    (hfresh : ¬ trackedDid st did) :
    opPost st (addDataset st sid did ds true now) [did] := by
  obtain ⟨hinv, hca, huo⟩ := hS
  rw [addDataset_eq]
  set S := (getSession st sid).1 with hSdef
  set M := addMetaOf ds did (ds.data.isSome && true) with hMdef
  set B : SessionData :=
    { datasets := ainsert S.datasets did M, history := S.history } with hBdef
  set DF : List (String × CsvFile) :=
    (match ds.data with
      | some tbl =>
          if true then ainsert st.datasetFiles did (saveCsv tbl) else st.datasetFiles
      | none => st.datasetFiles) with hDFdef
  set st' : StoreState :=
    { sessionsMeta := touchMeta st.sessionsMeta sid now,
      sessionsCache := ainsert (getSession st sid).2.sessionsCache sid B,
      datasetsCache := st.datasetsCache,
      sessionFiles := ainsert st.sessionFiles sid B,
      datasetFiles := DF,
      uploadFiles := st.uploadFiles } with hstdef
  -- the session body the op started from, related to the persisted one
  have hSfile : S = (alookup st.sessionFiles sid).getD emptySessionData :=
    getSession_fst st sid hca
  have hSrefs : ∀ r ∈ bodyRefs S, resolvable st r.1 r.2 := by
    intro r hr
    cases hfile : alookup st.sessionFiles sid with
    | none =>
        rw [hSfile, hfile] at hr
        simp [bodyRefs_empty] at hr
    | some b0 =>
        rw [hSfile, hfile] at hr
        exact hinv sid b0 hfile r hr
  have hSowned : ∀ d, d ∈ (bodyRefs S).map Prod.fst → ownedBy st d sid := by
    intro d hd
    cases hfile : alookup st.sessionFiles sid with
    | none =>
        rw [hSfile, hfile] at hd
        simp [bodyRefs_empty] at hd
    | some b0 =>
        rw [hSfile, hfile] at hd
        exact ⟨b0, hfile, hd⟩
  -- dataset files only grow
  have hdfmono : ∀ k, (alookup st.datasetFiles k).isSome = true →
      (alookup DF k).isSome = true := by
    intro k hk
    rw [hDFdef]
    cases ds.data with
    | none => exact hk
    | some tbl => simpa using isSome_ainsert st.datasetFiles did k (saveCsv tbl) hk
  have hdfrev : ∀ k, (alookup DF k).isSome = true →
      k = did ∨ (alookup st.datasetFiles k).isSome = true := by
    intro k hk
    rw [hDFdef] at hk
    cases hd : ds.data with
    | none => rw [hd] at hk; exact Or.inr hk
    | some tbl =>
        rw [hd] at hk
        exact isSome_alookup_ainsert_rev (by simpa using hk)
  -- the newly recorded metadata resolves
  have hMres : resolvable st' did M := by
    rcases hgood with hinline | ⟨p, hp, hup⟩
    · right
      constructor
      · rw [hMdef, addMetaOf]
        simp [hinline]
      · show (alookup DF did).isSome = true
        rw [hDFdef]
        cases hd : ds.data with
        | none => rw [hd] at hinline; simp at hinline
        | some tbl => simp [alookup_ainsert_self]
    · left
      exact ⟨p, by rw [hMdef]; exact hp, hup⟩
  -- decomposing references of the new body
  have hBrefs : ∀ r ∈ bodyRefs B, r = (did, M) ∨ r ∈ bodyRefs S := by
    intro r hr
    rw [hBdef, bodyRefs] at hr
    rcases List.mem_append.mp hr with hl | hrh
    · rcases mem_ainsert _ _ _ _ hl with he | hm
      · exact Or.inl he
      · exact Or.inr (List.mem_append_left _ hm)
    · exact Or.inr (List.mem_append_right _ hrh)
  have hBowned : ∀ d, d ∈ (bodyRefs B).map Prod.fst →
      d = did ∨ d ∈ (bodyRefs S).map Prod.fst := by
    intro d hd
    rcases List.mem_map.mp hd with ⟨r, hr, rfl⟩
    rcases hBrefs r hr with he | hm
    · left; rw [he]
    · right; exact List.mem_map_of_mem _ hm
  -- ownership in the new state
  have hown : ∀ d s, ownedBy st' d s → (d = did ∧ s = sid) ∨ ownedBy st d s := by
    intro d s ⟨b, hb, hm⟩
    have hb' : alookup (ainsert st.sessionFiles sid B) s = some b := hb
    rw [alookup_ainsert] at hb'
    by_cases hss : sid = s
    · rw [if_pos hss] at hb'
      obtain rfl : B = b := by injection hb'
      rcases hBowned d hm with rfl | hm2
      · exact Or.inl ⟨rfl, hss.symm⟩
      · exact Or.inr (hss ▸ hSowned d hm2)
    · rw [if_neg hss] at hb'
      exact Or.inr ⟨b, hb', hm⟩
  refine ⟨⟨?_, ?_, ?_⟩, ?_, rfl⟩
  · -- storeInv
    intro q b hq r hr
    have hq' : alookup (ainsert st.sessionFiles sid B) q = some b := hq
    rw [alookup_ainsert] at hq'
    by_cases hsq : sid = q
    · rw [if_pos hsq] at hq'
      obtain rfl : B = b := by injection hq'
      rcases hBrefs r hr with he | hm
      · rw [he]; exact hMres
      · exact resolvable_mono st st' r.1 r.2 rfl hdfmono (hSrefs r hm)
    · rw [if_neg hsq] at hq'
      exact resolvable_mono st st' r.1 r.2 rfl hdfmono (hinv q b hq' r hr)
  · -- cacheAgrees
    intro q d hq
    have hgc := getSession_cacheAgrees st sid hca
    have hq' : alookup (ainsert (getSession st sid).2.sessionsCache sid B) q = some d := hq
    rw [alookup_ainsert] at hq'
    show d = (alookup (ainsert st.sessionFiles sid B) q).getD emptySessionData
    rw [alookup_ainsert]
    by_cases hsq : sid = q
    · rw [if_pos hsq] at hq'
      injection hq' with h
      simp [hsq, ← h]
    · rw [if_neg hsq] at hq'
      rw [if_neg hsq]
      have := hgc q d hq'
      rwa [getSession_sessionFiles st sid] at this
  · -- uniqueOwner
    intro d s1 s2 h1 h2
    rcases hown d s1 h1 with ⟨rfl, rfl⟩ | ho1
    · rcases hown d s2 h2 with ⟨_, rfl⟩ | ho2
      · rfl
      · exact absurd (Or.inr ⟨s2, ho2⟩) hfresh
    · rcases hown d s2 h2 with ⟨rfl, rfl⟩ | ho2
      · exact absurd (Or.inr ⟨s1, ho1⟩) hfresh
      · exact huo d s1 s2 ho1 ho2
  · -- tracked ids grow only by did
    intro d hd
    rcases hd with hf | ⟨s, hs⟩
    · rcases hdfrev d hf with rfl | hold
      · exact Or.inr (List.mem_singleton.mpr rfl)
      · exact Or.inl (Or.inl hold)
    · rcases hown d s hs with ⟨rfl, _⟩ | ho
      · exact Or.inr (List.mem_singleton.mpr rfl)
      · exact Or.inl (Or.inr ⟨s, ho⟩)

theorem histRefs_append (a b : List HistoryItem) :
    histRefs (a ++ b) = histRefs a ++ histRefs b := by
  simp [histRefs]

theorem externalize_spec (csvOk : String → Bool) (hok : ∀ d, csvOk d = true)
    (l : List (String × DatasetRec)) (hdata : ∀ pr ∈ l, pr.2.data.isSome = true)
    (st : StoreState) :
    (externalizeHistDatasets csvOk st l).2.sessionsMeta = st.sessionsMeta ∧
    (externalizeHistDatasets csvOk st l).2.sessionsCache = st.sessionsCache ∧
    (externalizeHistDatasets csvOk st l).2.datasetsCache = st.datasetsCache ∧
    (externalizeHistDatasets csvOk st l).2.sessionFiles = st.sessionFiles ∧
    (externalizeHistDatasets csvOk st l).2.uploadFiles = st.uploadFiles ∧
    (∀ k, (alookup st.datasetFiles k).isSome = true →
      (alookup (externalizeHistDatasets csvOk st l).2.datasetFiles k).isSome = true) ∧
    (∀ k, (alookup (externalizeHistDatasets csvOk st l).2.datasetFiles k).isSome = true →
      k ∈ l.map Prod.fst ∨ (alookup st.datasetFiles k).isSome = true) ∧
    (∀ pr ∈ (externalizeHistDatasets csvOk st l).1, pr.2.dataFile.isSome = true ∧
      (alookup (externalizeHistDatasets csvOk st l).2.datasetFiles pr.1).isSome = true) ∧
    (externalizeHistDatasets csvOk st l).1.map Prod.fst = l.map Prod.fst := by
  induction l generalizing st with
  | nil =>
      refine ⟨rfl, rfl, rfl, rfl, rfl, fun k hk => hk, fun k hk => Or.inr hk, ?_, rfl⟩
      intro pr hpr
      simp [externalizeHistDatasets] at hpr
  | cons hd tl ih =>
      obtain ⟨did, ds⟩ := hd
      have hds : ds.data.isSome = true := hdata (did, ds) (List.mem_cons_self _ _)
      obtain ⟨tbl, htbl⟩ := Option.isSome_iff_exists.mp hds
      have hokd : csvOk did = true := hok did
      have hunf : externalizeHistDatasets csvOk st ((did, ds) :: tl) =
          ((did, { name := ds.name, dtype := ds.dtype, preview := ds.preview,
                   dataFile := some (datasetPathOf did) }) ::
            (externalizeHistDatasets csvOk
              { st with datasetFiles := ainsert st.datasetFiles did (saveCsv tbl) } tl).1,
           (externalizeHistDatasets csvOk
              { st with datasetFiles := ainsert st.datasetFiles did (saveCsv tbl) } tl).2) := by
        rw [externalizeHistDatasets, htbl]
        simp [saveDatasetToCsv, hokd]
      set st1 : StoreState :=
        { st with datasetFiles := ainsert st.datasetFiles did (saveCsv tbl) } with hst1
      have ihtl := ih (fun pr hpr => hdata pr (List.mem_cons_of_mem _ hpr)) st1
      obtain ⟨i1, i2, i3, i4, i5, imono, irev, irefs, ikeys⟩ := ihtl
      rw [hunf]
      refine ⟨i1, i2, i3, i4, i5, ?_, ?_, ?_, ?_⟩
      · intro k hk
        exact imono k (isSome_ainsert st.datasetFiles did k (saveCsv tbl) hk)
      · intro k hk
        rcases irev k hk with hm | hat
        · exact Or.inl (List.mem_cons_of_mem _ hm)
        · rcases isSome_alookup_ainsert_rev hat with rfl | hold
          · exact Or.inl (by simp)
          · exact Or.inr hold
      · intro pr hpr
        rcases List.mem_cons.mp hpr with rfl | htail
        · refine ⟨by simp, ?_⟩
          have : (alookup st1.datasetFiles did).isSome = true := by
            rw [hst1]
            simp [alookup_ainsert_self]
          exact imono did this
        · exact irefs pr htail
      · simpa using ikeys

theorem addHistory_preserves (st : StoreState) (sid : String) (item : HistoryItem)
    (csvOk : String → Bool) (now : Nat) (hS : strongInv st)
    (hgood : ∀ pr ∈ item.datasets.getD [], pr.2.data.isSome = true)
    (hok : ∀ d, csvOk d = true)
    (hfresh : ∀ d ∈ (item.datasets.getD []).map Prod.fst, ¬ trackedDid st d) :
    opPost st (addHistory st sid item csvOk now)
      ((item.datasets.getD []).map Prod.fst) := by
  obtain ⟨hinv, hca, huo⟩ := hS
  have hSfile : (getSession st sid).1 =
      (alookup st.sessionFiles sid).getD emptySessionData := getSession_fst st sid hca
  have hSrefs : ∀ r ∈ bodyRefs (getSession st sid).1, resolvable st r.1 r.2 := by
    intro r hr
    cases hfile : alookup st.sessionFiles sid with
    | none => rw [hSfile, hfile] at hr; simp [bodyRefs_empty] at hr
    | some b0 => rw [hSfile, hfile] at hr; exact hinv sid b0 hfile r hr
  have hSowned : ∀ d, d ∈ (bodyRefs (getSession st sid).1).map Prod.fst →
      ownedBy st d sid := by
    intro d hd
    cases hfile : alookup st.sessionFiles sid with
    | none => rw [hSfile, hfile] at hd; simp [bodyRefs_empty] at hd
    | some b0 => rw [hSfile, hfile] at hd; exact ⟨b0, hfile, hd⟩
  cases hds : item.datasets with
  | none =>
      set B : SessionData :=
        { datasets := (getSession st sid).1.datasets,
          history := (getSession st sid).1.history ++ [item] } with hBdef
      have hmain : addHistory st sid item csvOk now =
          ⟨touchMeta st.sessionsMeta sid now,
           ainsert (getSession st sid).2.sessionsCache sid B,
           st.datasetsCache, ainsert st.sessionFiles sid B,
           st.datasetFiles, st.uploadFiles⟩ := by
        simp only [addHistory, hds]
        rw [getSession_sessionsMeta, getSession_datasetsCache, getSession_sessionFiles,
          getSession_datasetFiles, getSession_uploadFiles]
      rw [hmain]
      set st' : StoreState :=
        ⟨touchMeta st.sessionsMeta sid now,
         ainsert (getSession st sid).2.sessionsCache sid B,
         st.datasetsCache, ainsert st.sessionFiles sid B,
         st.datasetFiles, st.uploadFiles⟩ with hstdef
      have hBrefs : ∀ r ∈ bodyRefs B, r ∈ bodyRefs (getSession st sid).1 := by
        intro r hr
        rw [hBdef, bodyRefs] at hr
        rcases List.mem_append.mp hr with hl | hrh
        · exact List.mem_append_left _ hl
        · rw [histRefs_append] at hrh
          rcases List.mem_append.mp hrh with h1 | h2
          · exact List.mem_append_right _ h1
          · simp [histRefs, hds] at h2
      have hown : ∀ d s, ownedBy st' d s → ownedBy st d s := by
        intro d s hded
        obtain ⟨b, hb, hm⟩ := hded
        have hb' : alookup (ainsert st.sessionFiles sid B) s = some b := hb
        rw [alookup_ainsert] at hb'
        by_cases hss : sid = s
        · rw [if_pos hss] at hb'
          obtain rfl : B = b := by injection hb'
          have hmem : d ∈ (bodyRefs (getSession st sid).1).map Prod.fst := by
            rcases List.mem_map.mp hm with ⟨r, hr, rfl⟩
            exact List.mem_map_of_mem _ (hBrefs r hr)
          exact hss ▸ hSowned d hmem
        · rw [if_neg hss] at hb'
          exact ⟨b, hb', hm⟩
      refine ⟨⟨?_, ?_, ?_⟩, ?_, rfl⟩
      · intro q b hq r hr
        have hq' : alookup (ainsert st.sessionFiles sid B) q = some b := hq
        rw [alookup_ainsert] at hq'
        by_cases hsq : sid = q
        · rw [if_pos hsq] at hq'
          obtain rfl : B = b := by injection hq'
          exact resolvable_mono st st' r.1 r.2 rfl (fun k hk => hk) (hSrefs r (hBrefs r hr))
        · rw [if_neg hsq] at hq'
          exact resolvable_mono st st' r.1 r.2 rfl (fun k hk => hk) (hinv q b hq' r hr)
      · intro q d hq
        have hgc := getSession_cacheAgrees st sid hca
        have hq' : alookup (ainsert (getSession st sid).2.sessionsCache sid B) q =
            some d := hq
        rw [alookup_ainsert] at hq'
        show d = (alookup (ainsert st.sessionFiles sid B) q).getD emptySessionData
        rw [alookup_ainsert]
        by_cases hsq : sid = q
        · rw [if_pos hsq] at hq'
          injection hq' with h
          simp [hsq, ← h]
        · rw [if_neg hsq] at hq'
          rw [if_neg hsq]
          have := hgc q d hq'
          rwa [getSession_sessionFiles st sid] at this
      · intro d s1 s2 h1 h2
        exact huo d s1 s2 (hown d s1 h1) (hown d s2 h2)
      · intro d hd
        rcases hd with hf | ⟨s, hs⟩
        · exact Or.inl (Or.inl hf)
        · exact Or.inl (Or.inr ⟨s, hown d s hs⟩)
  | some dsl =>
      have hgood2 : ∀ pr ∈ dsl, pr.2.data.isSome = true := by
        intro pr hpr
        exact hgood pr (by rw [hds]; simpa using hpr)
      obtain ⟨i1, i2, i3, i4, i5, imono, irev, irefs, ikeys⟩ :=
        externalize_spec csvOk hok dsl hgood2 (getSession st sid).2
      set E := externalizeHistDatasets csvOk (getSession st sid).2 dsl with hEdef
      set B : SessionData :=
        { datasets := (getSession st sid).1.datasets,
          history := (getSession st sid).1.history ++
            [{ item with datasets := some E.1 }] } with hBdef
      have hmain : addHistory st sid item csvOk now =
          ⟨touchMeta st.sessionsMeta sid now,
           ainsert (getSession st sid).2.sessionsCache sid B,
           st.datasetsCache, ainsert st.sessionFiles sid B,
           E.2.datasetFiles, st.uploadFiles⟩ := by
        simp only [addHistory, hds]
        rw [← hEdef, i1, i2, i3, i4, i5, getSession_sessionsMeta, getSession_datasetsCache,
          getSession_sessionFiles, getSession_uploadFiles]
      rw [hmain]
      set st' : StoreState :=
        ⟨touchMeta st.sessionsMeta sid now,
         ainsert (getSession st sid).2.sessionsCache sid B,
         st.datasetsCache, ainsert st.sessionFiles sid B,
         E.2.datasetFiles, st.uploadFiles⟩ with hstdef
      have hdfmono : ∀ k, (alookup st.datasetFiles k).isSome = true →
          (alookup E.2.datasetFiles k).isSome = true := by
        intro k hk
        exact imono k (by rwa [getSession_datasetFiles])
      have hdfrev : ∀ k, (alookup E.2.datasetFiles k).isSome = true →
          k ∈ dsl.map Prod.fst ∨ (alookup st.datasetFiles k).isSome = true := by
        intro k hk
        rcases irev k hk with hm | hat
        · exact Or.inl hm
        · right; rwa [getSession_datasetFiles] at hat
      have hBrefs : ∀ r ∈ bodyRefs B,
          r ∈ E.1 ∨ r ∈ bodyRefs (getSession st sid).1 := by
        intro r hr
        rw [hBdef, bodyRefs] at hr
        rcases List.mem_append.mp hr with hl | hrh
        · exact Or.inr (List.mem_append_left _ hl)
        · rw [histRefs_append] at hrh
          rcases List.mem_append.mp hrh with h1 | h2
          · exact Or.inr (List.mem_append_right _ h1)
          · simp only [histRefs, List.map_cons, List.map_nil] at h2
            left
            simpa using h2
      have hown : ∀ d s, ownedBy st' d s →
          (d ∈ dsl.map Prod.fst ∧ s = sid) ∨ ownedBy st d s := by
        intro d s hded
        obtain ⟨b, hb, hm⟩ := hded
        have hb' : alookup (ainsert st.sessionFiles sid B) s = some b := hb
        rw [alookup_ainsert] at hb'
        by_cases hss : sid = s
        · rw [if_pos hss] at hb'
          obtain rfl : B = b := by injection hb'
          rcases List.mem_map.mp hm with ⟨r, hr, rfl⟩
          rcases hBrefs r hr with hE | hold
          · left
            refine ⟨?_, hss.symm⟩
            rw [← ikeys]
            exact List.mem_map_of_mem _ hE
          · exact Or.inr (hss ▸ hSowned r.1 (List.mem_map_of_mem _ hold))
        · rw [if_neg hss] at hb'
          exact Or.inr ⟨b, hb', hm⟩
      refine ⟨⟨?_, ?_, ?_⟩, ?_, rfl⟩
      · intro q b hq r hr
        have hq' : alookup (ainsert st.sessionFiles sid B) q = some b := hq
        rw [alookup_ainsert] at hq'
        by_cases hsq : sid = q
        · rw [if_pos hsq] at hq'
          obtain rfl : B = b := by injection hq'
          rcases hBrefs r hr with hE | hold
          · obtain ⟨h1, h2⟩ := irefs r hE
            exact Or.inr ⟨h1, h2⟩
          · exact resolvable_mono st st' r.1 r.2 rfl hdfmono (hSrefs r hold)
        · rw [if_neg hsq] at hq'
          exact resolvable_mono st st' r.1 r.2 rfl hdfmono (hinv q b hq' r hr)
      · intro q d hq
        have hgc := getSession_cacheAgrees st sid hca
        have hq' : alookup (ainsert (getSession st sid).2.sessionsCache sid B) q =
            some d := hq
        rw [alookup_ainsert] at hq'
        show d = (alookup (ainsert st.sessionFiles sid B) q).getD emptySessionData
        rw [alookup_ainsert]
        by_cases hsq : sid = q
        · rw [if_pos hsq] at hq'
          injection hq' with h
          simp [hsq, ← h]
        · rw [if_neg hsq] at hq'
          rw [if_neg hsq]
          have := hgc q d hq'
          rwa [getSession_sessionFiles st sid] at this
      · intro d s1 s2 h1 h2
        rcases hown d s1 h1 with ⟨hd1, rfl⟩ | ho1
        · rcases hown d s2 h2 with ⟨_, rfl⟩ | ho2
          · rfl
          · refine absurd (Or.inr ⟨s2, ho2⟩) (hfresh d ?_)
            show d ∈ (item.datasets.getD []).map Prod.fst
            rw [hds]
            simpa using hd1
        · rcases hown d s2 h2 with ⟨hd2, rfl⟩ | ho2
          · refine absurd (Or.inr ⟨s1, ho1⟩) (hfresh d ?_)
            show d ∈ (item.datasets.getD []).map Prod.fst
            rw [hds]
            simpa using hd2
          · exact huo d s1 s2 ho1 ho2
      · intro d hd
        rcases hd with hf | ⟨s, hs⟩
        · rcases hdfrev d hf with hm | hold
          · exact Or.inr (by simpa using hm)
          · exact Or.inl (Or.inl hold)
        · rcases hown d s hs with ⟨hm, _⟩ | ho
          · exact Or.inr (by simpa using hm)
          · exact Or.inl (Or.inr ⟨s, ho⟩)

theorem delete_like_post (st : StoreState) (sid : String)
    (C3 : List (String × SessionData)) (killKeys : List String) (hS : strongInv st)
    (hC3 : ∀ q, q ≠ sid → alookup C3 q = alookup st.sessionsCache q)
    (hkill : ∀ k ∈ killKeys, ownedBy st k sid) :
    opPost st
      ⟨st.sessionsMeta.filter (fun m => m.id ≠ sid),
       aremove C3 sid, st.datasetsCache, aremove st.sessionFiles sid,
       killKeys.foldl aremove st.datasetFiles, st.uploadFiles⟩ [] := by
  obtain ⟨hinv, hca, huo⟩ := hS
  have hfiles : ∀ q b, alookup (aremove st.sessionFiles sid) q = some b →
      q ≠ sid ∧ alookup st.sessionFiles q = some b := by
    intro q b hq
    rw [alookup_aremove] at hq
    by_cases hqs : q = sid
    · rw [if_pos hqs] at hq; exact absurd hq (by simp)
    · rw [if_neg hqs] at hq; exact ⟨hqs, hq⟩
  have hown : ∀ d s,
      ownedBy ⟨st.sessionsMeta.filter (fun m => m.id ≠ sid),
        aremove C3 sid, st.datasetsCache, aremove st.sessionFiles sid,
        killKeys.foldl aremove st.datasetFiles, st.uploadFiles⟩ d s →
      s ≠ sid ∧ ownedBy st d s := by
    intro d s hded
    obtain ⟨b, hb, hm⟩ := hded
    obtain ⟨hne, hb'⟩ := hfiles s b hb
    exact ⟨hne, b, hb', hm⟩
  refine ⟨⟨?_, ?_, ?_⟩, ?_, rfl⟩
  · -- storeInv: surviving sessions keep resolvable references
    intro q b hq r hr
    obtain ⟨hqs, hq'⟩ := hfiles q b hq
    rcases hinv q b hq' r hr with ⟨p, hp, hup⟩ | ⟨hdf, hex⟩
    · exact Or.inl ⟨p, hp, hup⟩
    · right
      refine ⟨hdf, ?_⟩
      show (alookup (killKeys.foldl aremove st.datasetFiles) r.1).isSome = true
      rw [alookup_foldl_aremove]
      have hnk : r.1 ∉ killKeys := by
        intro hk
        have ho1 : ownedBy st r.1 sid := hkill r.1 hk
        have ho2 : ownedBy st r.1 q := ⟨b, hq', List.mem_map_of_mem _ hr⟩
        exact hqs (huo r.1 q sid ho2 ho1)
      rw [if_neg hnk]
      exact hex
  · -- cacheAgrees
    intro q d hq
    have hq2 : alookup (aremove C3 sid) q = some d := hq
    rw [alookup_aremove] at hq2
    by_cases hqs : q = sid
    · rw [if_pos hqs] at hq2; exact absurd hq2 (by simp)
    · rw [if_neg hqs] at hq2
      rw [hC3 q hqs] at hq2
      have := hca q d hq2
      show d = (alookup (aremove st.sessionFiles sid) q).getD emptySessionData
      rw [alookup_aremove, if_neg hqs]
      exact this
  · -- uniqueOwner
    intro d s1 s2 h1 h2
    exact huo d s1 s2 (hown d s1 h1).2 (hown d s2 h2).2
  · -- no new tracked ids
    intro d hd
    rcases hd with hf | ⟨s, hs⟩
    · left
      left
      have hf2 : (alookup (killKeys.foldl aremove st.datasetFiles) d).isSome = true := hf
      rw [alookup_foldl_aremove] at hf2
      by_cases hdm : d ∈ killKeys
      · rw [if_pos hdm] at hf2; exact absurd hf2 (by simp)
      · rw [if_neg hdm] at hf2; exact hf2
    · exact Or.inl (Or.inr ⟨s, (hown d s hs).2⟩)

theorem deleteSession_preserves (st : StoreState) (sid : String) (hS : strongInv st) :
    opPost st (deleteSession st sid).2 [] := by
  cases hcc : alookup st.sessionsCache sid with
  | some d =>
      have hmain : (deleteSession st sid).2 =
          ⟨st.sessionsMeta.filter (fun m => m.id ≠ sid),
           aremove st.sessionsCache sid, st.datasetsCache, aremove st.sessionFiles sid,
           (d.datasets.map Prod.fst).foldl aremove st.datasetFiles, st.uploadFiles⟩ := by
        simp only [deleteSession, getSession, hcc]
      rw [hmain]
      refine delete_like_post st sid st.sessionsCache (d.datasets.map Prod.fst) hS
        (fun q _ => rfl) ?_
      intro k hk
      have hd := hS.2.1 sid d hcc
      cases hfile : alookup st.sessionFiles sid with
      | none =>
          rw [hfile] at hd
          rw [hd] at hk
          simp [emptySessionData] at hk
      | some b0 =>
          rw [hfile] at hd
          rw [hd] at hk
          refine ⟨b0, hfile, ?_⟩
          rcases List.mem_map.mp hk with ⟨r, hr, rfl⟩
          exact List.mem_map_of_mem _ (mem_bodyRefs_datasets hr)
  | none =>
      have hmain : (deleteSession st sid).2 =
          ⟨st.sessionsMeta.filter (fun m => m.id ≠ sid),
           aremove (ainsert st.sessionsCache sid emptySessionData) sid,
           st.datasetsCache, aremove st.sessionFiles sid,
           st.datasetFiles, st.uploadFiles⟩ := by
        simp only [deleteSession, getSession, hcc, alookup_aremove, if_pos rfl]
        simp [emptySessionData]
      rw [hmain]
      have hpost := delete_like_post st sid (ainsert st.sessionsCache sid emptySessionData)
        [] hS ?_ ?_
      · simpa using hpost
      · intro q hq
        exact alookup_ainsert_ne st.sessionsCache sid q emptySessionData
          (fun hh => hq hh.symm)
      · intro k hk
        simp at hk

theorem applyOp_preserves (st : StoreState) (op : StoreOp) (hS : strongInv st)
    (hg : goodOp st op) (hfresh : ∀ d ∈ opDids op, ¬ trackedDid st d) :
    opPost st (applyOp st op) (opDids op) := by
  cases op with
  | create sid name now => exact createSession_preserves st sid name now hS
  | addDs sid did ds ok now =>
      obtain ⟨hok, hgood⟩ := hg
      subst hok
      exact addDataset_preserves st sid did ds now hS hgood
        (hfresh did (by simp [opDids]))
  | addHist sid item ok now =>
      obtain ⟨hgood, hok⟩ := hg
      exact addHistory_preserves st sid item ok now hS hgood hok hfresh
  | delete sid => exact deleteSession_preserves st sid hS

theorem runOps_preserves (ops : List StoreOp) (st : StoreState) (hS : strongInv st)
    (hops : goodOps st ops) : strongInv (runOps st ops) := by
  induction ops generalizing st with
  | nil => exact hS
  | cons op rest ih =>
      obtain ⟨hg, hfresh, hrest⟩ := hops
      exact ih (applyOp st op) (applyOp_preserves st op hS hg hfresh).1 hrest

theorem initStore_strongInv (uploads : List (String × CsvFile)) :
    strongInv (initStore uploads) := by
  refine ⟨?_, ?_, ?_⟩
  · intro sid b hb
    simp [initStore, alookup] at hb
  · intro sid d hd
    simp [initStore, alookup] at hd
  · intro d s1 s2 h1 h2
    obtain ⟨b, hb, _⟩ := h1
    simp [initStore, alookup] at hb

theorem pickMaxAux_ge (l : List (String × ℚ)) (b : String × ℚ) :
    b.2 ≤ (pickMaxAux b l).2 := by
  induction l generalizing b with
  | nil => exact le_refl _
  | cons x xs ih =>
      rw [pickMaxAux]
      by_cases h : b.2 < x.2
      · rw [if_pos h]
        exact le_of_lt (lt_of_lt_of_le h (ih x))
      · rw [if_neg h]
        exact ih b

/-- The function `pickMaxAux` returns the first element attaining the maximum: the
list splits around the result, everything before it strictly below,
everything after it at most equal. -/
theorem pickMaxAux_split (l : List (String × ℚ)) (b : String × ℚ) :
    ∃ pre post, b :: l = pre ++ pickMaxAux b l :: post ∧
      (∀ q ∈ pre, q.2 < (pickMaxAux b l).2) ∧
      (∀ q ∈ post, q.2 ≤ (pickMaxAux b l).2) := by
  induction l generalizing b with
  | nil => exact ⟨[], [], rfl, by simp, by simp⟩
  | cons x xs ih =>
      rw [pickMaxAux]
      by_cases h : b.2 < x.2
      · rw [if_pos h]
        obtain ⟨pre, post, heq, hpre, hpost⟩ := ih x
        refine ⟨b :: pre, post, ?_, ?_, hpost⟩
        · rw [List.cons_append, ← heq]
        · intro q hq
          rcases List.mem_cons.mp hq with rfl | hq2
          · exact lt_of_lt_of_le h (pickMaxAux_ge xs x)
          · exact hpre q hq2
      · rw [if_neg h]
        obtain ⟨pre, post, heq, hpre, hpost⟩ := ih b
        cases pre with
        | nil =>
            simp only [List.nil_append] at heq
            obtain ⟨hb, hxs⟩ := List.cons_eq_cons.mp heq
            refine ⟨[], x :: post, ?_, by simp, ?_⟩
            · rw [List.nil_append, ← hb, ← hxs]
            · intro q hq
              rcases List.mem_cons.mp hq with rfl | hq2
              · rw [← hb]; exact not_lt.mp h
              · exact hpost q hq2
        | cons p0 pre2 =>
            simp only [List.cons_append] at heq
            obtain ⟨hp0, hxs⟩ := List.cons_eq_cons.mp heq
            refine ⟨b :: x :: pre2, post, ?_, ?_, hpost⟩
            · rw [List.cons_append, List.cons_append, ← hxs]
            · intro q hq
              have hbr : b.2 < (pickMaxAux b xs).2 := by
                have := hpre p0 (List.mem_cons_self _ _)
                rwa [← hp0] at this
              rcases List.mem_cons.mp hq with rfl | hq2
              · exact hbr
              · rcases List.mem_cons.mp hq2 with rfl | hq3
                · exact lt_of_le_of_lt (not_lt.mp h) hbr
                · exact hpre q (List.mem_cons_of_mem _ hq3)

theorem pickMaxAux_mem (l : List (String × ℚ)) (b : String × ℚ) :
    pickMaxAux b l ∈ b :: l := by
  obtain ⟨pre, post, heq, _, _⟩ := pickMaxAux_split l b
  rw [heq]
  exact List.mem_append_right _ (List.mem_cons_self _ _)

theorem pickMaxAux_ub (l : List (String × ℚ)) (b : String × ℚ) :
    ∀ q ∈ b :: l, q.2 ≤ (pickMaxAux b l).2 := by
  obtain ⟨pre, post, heq, hpre, hpost⟩ := pickMaxAux_split l b
  intro q hq
  rw [heq] at hq
  rcases List.mem_append.mp hq with h1 | h2
  · exact le_of_lt (hpre q h1)
  · rcases List.mem_cons.mp h2 with rfl | h3
    · exact le_refl _
    · exact hpost q h3

theorem hitsFor_le (prompt : String) (kws : List String) :
    hitsFor prompt kws ≤ kws.length :=
  List.length_filter_le _ _

theorem normScore_eq (prompt : String) (kws : List String) :
    normScore prompt kws = (hitsFor prompt kws : ℚ) / (kws.length : ℚ) := by
  rw [normScore]
  by_cases h : 0 < hitsFor prompt kws
  · rw [if_pos h]
  · rw [if_neg h]
    have h0 : hitsFor prompt kws = 0 := Nat.eq_zero_of_not_pos h
    rw [h0]
    simp

theorem normScore_nonneg (prompt : String) (kws : List String) :
    0 ≤ normScore prompt kws := by
  rw [normScore_eq]
  positivity

theorem normScore_le_one (prompt : String) (kws : List String) :
    normScore prompt kws ≤ 1 := by
  rw [normScore_eq]
  rcases Nat.eq_zero_or_pos kws.length with h0 | hpos
  · have : hitsFor prompt kws = 0 := by
      have := hitsFor_le prompt kws
      omega
    rw [this, h0]
    norm_num
  · rw [div_le_one (by exact_mod_cast hpos)]
    exact_mod_cast hitsFor_le prompt kws

theorem pickLongest_ge (l : List (List Char)) (b : List Char) :
    b.length ≤ (pickLongest b l).length := by
  induction l generalizing b with
  | nil => exact le_refl _
  | cons x xs ih =>
      rw [pickLongest]
      by_cases h : b.length < x.length
      · rw [if_pos h]
        exact le_of_lt (lt_of_lt_of_le h (ih x))
      · rw [if_neg h]
        exact ih b

theorem pickLongest_mem (l : List (List Char)) (b : List Char) :
    pickLongest b l ∈ b :: l := by
  induction l generalizing b with
  | nil => simp [pickLongest]
  | cons x xs ih =>
      rw [pickLongest]
      by_cases h : b.length < x.length
      · rw [if_pos h]
        rcases List.mem_cons.mp (ih x) with h1 | h2
        · rw [h1]; simp
        · exact List.mem_cons_of_mem _ (List.mem_cons_of_mem _ h2)
      · rw [if_neg h]
        rcases List.mem_cons.mp (ih b) with h1 | h2
        · rw [h1]; simp
        · exact List.mem_cons_of_mem _ (List.mem_cons_of_mem _ h2)

theorem pickLongest_ub (l : List (List Char)) (b : List Char) :
    ∀ q ∈ b :: l, q.length ≤ (pickLongest b l).length := by
  induction l generalizing b with
  | nil =>
      intro q hq
      rcases List.mem_cons.mp hq with rfl | h2
      · exact le_refl _
      · simp at h2
  | cons x xs ih =>
      intro q hq
      rw [pickLongest]
      by_cases h : b.length < x.length
      · rw [if_pos h]
        rcases List.mem_cons.mp hq with rfl | h2
        · exact le_of_lt (lt_of_lt_of_le h (pickLongest_ge xs x))
        · exact ih x q h2
      · rw [if_neg h]
        rcases List.mem_cons.mp hq with rfl | h2
        · exact pickLongest_ge xs q
        · rcases List.mem_cons.mp h2 with rfl | h3
          · exact le_trans (not_lt.mp h) (pickLongest_ge xs b)
          · exact ih b q (List.mem_cons_of_mem _ h3)

theorem externalize_fields (csvOk : String → Bool) (l : List (String × DatasetRec))
    (st : StoreState) :
    (externalizeHistDatasets csvOk st l).2.sessionsMeta = st.sessionsMeta ∧
    (externalizeHistDatasets csvOk st l).2.sessionsCache = st.sessionsCache ∧
    (externalizeHistDatasets csvOk st l).2.datasetsCache = st.datasetsCache ∧
    (externalizeHistDatasets csvOk st l).2.sessionFiles = st.sessionFiles ∧
    (externalizeHistDatasets csvOk st l).2.uploadFiles = st.uploadFiles := by
  induction l generalizing st with
  | nil => exact ⟨rfl, rfl, rfl, rfl, rfl⟩
  | cons hd tl ih =>
      obtain ⟨did, ds⟩ := hd
      cases hdt : ds.data with
      | none =>
          simp only [externalizeHistDatasets, hdt]
          exact ih st
      | some tbl =>
          simp only [externalizeHistDatasets, hdt, saveDatasetToCsv]
          cases csvOk did with
          | true =>
              simp only [if_true]
              exact ih _
          | false =>
              simp only [Bool.false_eq_true, if_false]
              exact ih st

/-! ## C1 — exception propagation out of the generated code -/
/-- C1 counterexample: a generated `analyze_data` that raises a
`ValueError` propagates that very exception out of
`DataAnalysisAgent.execute` — it is not caught and re-wrapped as a
`GeneratedCodeError` (no such wrapping exists; the `try` block has only
a `finally`). -/
theorem c1_counterexample :
    runGeneratedAnalysis (fun _ => .error ⟨"ValueError", "boom"⟩) [] =
      ⟨.error ⟨"ValueError", "boom"⟩, true⟩ ∧
    (PyExc.mk "ValueError" "boom").excType ≠ "GeneratedCodeError" :=
  ⟨rfl, by decide⟩

/-- C1 (amended): any exception raised while executing the generated
analysis function propagates to the caller unchanged — same exception
type and message, no `GeneratedCodeError` wrapper — and the temporary
module file is removed on this exit path by the `finally` clause. -/
theorem c1_raw_exception_propagated (analyzeData : List Table → Except PyExc PyObj)
    (dfs : List Table) (e : PyExc) (h : analyzeData dfs = .error e) :
    runGeneratedAnalysis analyzeData dfs = ⟨.error e, true⟩ := by
  rw [runGeneratedAnalysis, h]

theorem c1_raw_exception_propagated_witness :
    (fun _ : List Table => (.error ⟨"ValueError", "boom"⟩ : Except PyExc PyObj)) [] =
      .error ⟨"ValueError", "boom"⟩ ∧
    runGeneratedAnalysis (fun _ => .error ⟨"ValueError", "boom"⟩) [] =
      ⟨.error ⟨"ValueError", "boom"⟩, true⟩ :=
  ⟨rfl, c1_raw_exception_propagated (fun _ => .error ⟨"ValueError", "boom"⟩) [] _ rfl⟩

/-! ## C2 — delete_session and bulk-file cleanup -/
/-- C2: the claim fails when the session body is not resident in the
cache.  `delete_session` removes the session body file before asking
`get_session` for the dataset ids, so after a service restart (caches
empty) the reload finds nothing: the id leaves the index but the bulk
file `d1.csv` stays on disk.  With the body cached (no restart) the
same deletion does remove the file, confirming the cleanup loop's
intent. -/
theorem c2_bulk_file_left_behind :
    (alookup demoStore.datasetFiles "d1").isSome = true ∧
    (deleteSession (restartService demoStore) "s1").1 = true ∧
    (deleteSession (restartService demoStore) "s1").2.sessionsMeta = [] ∧
    (alookup (deleteSession (restartService demoStore) "s1").2.datasetFiles "d1").isSome
      = true ∧
    (alookup (deleteSession demoStore "s1").2.datasetFiles "d1").isSome = false := by
  refine ⟨by decide, by decide, by decide, by decide, by decide⟩

/-! ## C4 — mutations on deleted / never-created sessions -/
/-- C4 counterexample: on a never-created (equally, deleted) session id,
`add_dataset` does not fail with any `SessionNotFound` — it silently
succeeds, materializing a fresh body for the id, and `add_history`
appends to it just as happily. -/
theorem c4_counterexample :
    alookup (initStore []).sessionFiles "ghost" = none ∧
    alookup (getSession (addDataset (initStore []) "ghost" "d1" demoDataset true 0)
        "ghost").1.datasets "d1" = some (addMetaOf demoDataset "d1" true) ∧
    (getHistory (addHistory (initStore []) "ghost" demoItem (fun _ => true) 0)
        "ghost").length = 1 := by
  refine ⟨rfl, by decide, by decide⟩

/-- C4 (amended): no `SessionNotFound` error exists; for a session id
with no cache entry and no body file (deleted or never created),
`add_dataset` and `add_history` succeed — each recreates a session body
file for the id and its mutation is visible through `get_session`. -/
theorem c4_mutations_succeed_on_absent_session (st : StoreState) (sid did : String)
    (ds : DatasetRec) (ok : Bool) (now : Nat) (item : HistoryItem)
    (csvOk : String → Bool) (hc : alookup st.sessionsCache sid = none)
    (hf : alookup st.sessionFiles sid = none) :
    (alookup (addDataset st sid did ds ok now).sessionFiles sid).isSome = true ∧
    (alookup (getSession (addDataset st sid did ds ok now) sid).1.datasets did).isSome
      = true ∧
    (alookup (addHistory st sid item csvOk now).sessionFiles sid).isSome = true ∧
    (getSession (addHistory st sid item csvOk now) sid).1.history.length = 1 := by
  have hfst : (getSession st sid).1 = emptySessionData := by
    rw [getSession, hc]
    simp [hf]
  refine ⟨?_, ?_, ?_, ?_⟩
  · rw [addDataset_eq]
    simp [alookup_ainsert_self]
  · rw [addDataset_eq, getSession]
    simp only [alookup_ainsert_self]
    simp [alookup_ainsert_self]
  · cases hds : item.datasets with
    | none =>
        simp only [addHistory, hds]
        simp [alookup_ainsert_self]
    | some dsl =>
        obtain ⟨e1, e2, e3, e4, e5⟩ :=
          externalize_fields csvOk dsl (getSession st sid).2
        simp only [addHistory, hds]
        simp [alookup_ainsert_self]
  · cases hds : item.datasets with
    | none =>
        simp only [addHistory, hds, getSession]
        simp only [alookup_ainsert_self]
        simp [hc, hf, emptySessionData]
    | some dsl =>
        obtain ⟨e1, e2, e3, e4, e5⟩ :=
          externalize_fields csvOk dsl (getSession st sid).2
        simp only [addHistory, hds, getSession]
        simp only [e2, alookup_ainsert_self]
        simp [hc, hf, emptySessionData]

theorem c4_mutations_succeed_on_absent_session_witness :
    alookup (initStore []).sessionsCache "ghost" = none ∧
    alookup (initStore []).sessionFiles "ghost" = none ∧
    (alookup (addDataset (initStore []) "ghost" "d1" demoDataset true 0).sessionFiles
        "ghost").isSome = true ∧
    (getSession (addHistory (initStore []) "ghost" demoItem (fun _ => true) 0)
        "ghost").1.history.length = 1 := by
  have h := c4_mutations_succeed_on_absent_session (initStore []) "ghost" "d1"
    demoDataset true 0 demoItem (fun _ => true) rfl rfl
  exact ⟨rfl, rfl, h.1, h.2.2.2⟩

/-! ## C9 — delete_session's return value -/
/-- C9 counterexample: `delete_session` returns True even for an id that
was never in the session index. -/
theorem c9_counterexample :
    (initStore []).sessionsMeta = [] ∧ (deleteSession (initStore []) "nope").1 = true :=
  ⟨rfl, by decide⟩

/-- C9 (amended): `delete_session` returns True unconditionally, for
known and unknown ids alike; it does filter the deleted id out of the
session index. -/
theorem c9_delete_always_true (st : StoreState) (sid : String) :
    (deleteSession st sid).1 = true ∧
    (deleteSession st sid).2.sessionsMeta =
      st.sessionsMeta.filter (fun m => m.id ≠ sid) := by
  cases hcc : alookup st.sessionsCache sid with
  | some d => exact ⟨by simp [deleteSession, getSession, hcc], by
      simp [deleteSession, getSession, hcc]⟩
  | none => exact ⟨by simp [deleteSession, getSession, hcc], by
      simp [deleteSession, getSession, hcc]⟩

/-! ## C10 — the dataset cache survives session deletion -/
/-- C10: `delete_session` evicts only the session-body cache entry and
leaves `datasets_cache` untouched (frame property), so after loading a
dataset into the cache and deleting its session, `get_dataset_data`
still serves the full payload from the cache instead of None. -/
theorem c10_delete_leaves_dataset_cache :
    (∀ (st : StoreState) (sid : String),
      ((deleteSession st sid).2).datasetsCache = st.datasetsCache) ∧
    (getDatasetData (deleteSession ((getDatasetData demoStore "s1" "d1").2) "s1").2
        "s1" "d1").1 = some [("a", [Cell.cStr "x", Cell.cNull])] := by
  constructor
  · intro st sid
    cases hcc : alookup st.sessionsCache sid with
    | some d => simp [deleteSession, getSession, hcc]
    | none => simp [deleteSession, getSession, hcc]
  · decide

/-! ## C3 — the dataset resolvability invariant -/
/-- C3 counterexample: when the bulk-CSV write inside `add_dataset`
fails, the dataset's metadata is still recorded in the session body —
with neither a `data_file` reference nor a `path` — so the referenced
dataset id resolves to no payload and the invariant is violated. -/
theorem c3_counterexample :
    ¬ storeInv (runOps (initStore [])
      [StoreOp.create "s1" "n" 0, StoreOp.addDs "s1" "d1" demoDataset false 1]) := by
  intro h
  have hres := h "s1" ⟨[("d1", addMetaOf demoDataset "d1" false)], []⟩ (by decide)
    ("d1", addMetaOf demoDataset "d1" false) (by decide)
  rcases hres with ⟨p, hp, _⟩ | ⟨hdf, _⟩
  · simp [addMetaOf, demoDataset] at hp
  · simp [addMetaOf] at hdf

/-- C3 (amended): starting from a fresh store, the invariant — every
dataset id referenced from a session body's datasets map or history
items resolves to an existing upload or bulk file — holds at every
state reachable through create/add_dataset/add_history/delete_session,
provided each bulk-CSV write succeeds, each added dataset carries an
inline payload or the path of an existing upload, history-embedded
datasets carry inline payloads, and dataset ids are globally fresh.
When a bulk write fails the invariant is lost (see the
counterexample). -/
theorem c3_invariant_preserved (uploads : List (String × CsvFile))
    (ops : List StoreOp) (hops : goodOps (initStore uploads) ops) :
    storeInv (runOps (initStore uploads) ops) :=
  (runOps_preserves ops (initStore uploads) (initStore_strongInv uploads) hops).1

theorem c3_invariant_preserved_witness :
    goodOps (initStore []) [StoreOp.create "s1" "n" 0,
      StoreOp.addDs "s1" "d1" demoDataset true 1] ∧
    storeInv (runOps (initStore []) [StoreOp.create "s1" "n" 0,
      StoreOp.addDs "s1" "d1" demoDataset true 1]) := by
  have hgood : goodOps (initStore []) [StoreOp.create "s1" "n" 0,
      StoreOp.addDs "s1" "d1" demoDataset true 1] := by
    refine ⟨trivial, ?_, ⟨rfl, Or.inl (by decide)⟩, ?_, trivial⟩
    · intro d hd
      simp [opDids] at hd
    · intro d hd
      simp only [opDids, List.mem_singleton] at hd
      subst hd
      rintro (hfile | ⟨s, b, hb, hm⟩)
      · revert hfile
        decide
      · have hsf : (applyOp (initStore []) (StoreOp.create "s1" "n" 0)).sessionFiles =
            [("s1", emptySessionData)] := rfl
        rw [hsf] at hb
        simp only [alookup] at hb
        by_cases hs : "s1" = s
        · rw [if_pos hs] at hb
          obtain rfl : emptySessionData = b := by injection hb
          simp [bodyRefs_empty] at hm
        · rw [if_neg hs] at hb
          exact absurd hb (by simp [alookup])
  exact ⟨hgood, c3_invariant_preserved [] _ hgood⟩

/-! ## C5 / C6 — intent classification helper lemmas -/
theorem scoresFor_map_fst (prompt : String) :
    (scoresFor prompt).map Prod.fst = agentTypeOrder := by
  simp [scoresFor, agentTypeOrder]

theorem agentKeywords_lookup : ∀ p ∈ agentKeywords, alookup agentKeywords p.1 = some p.2 := by
  decide

theorem scoresFor_keywords (prompt : String) :
    ∀ q ∈ scoresFor prompt, q.2 = normScore prompt (keywordsOf q.1) := by
  intro q hq
  rcases List.mem_map.mp hq with ⟨p, hp, rfl⟩
  have := agentKeywords_lookup p hp
  rw [keywordsOf, this]
  rfl

theorem ruleBased_eq_cons (prompt : String) (s0 : String × ℚ)
    (rest : List (String × ℚ)) (hsc : scoresFor prompt = s0 :: rest) :
    ruleBasedIntentRecognition prompt =
      if (pickMaxAux s0 rest).2 = 0 then defaultIntentResult
      else
        [("agent_type", JValue.jStr (pickMaxAux s0 rest).1),
         ("confidence", JValue.jNum (pickMaxAux s0 rest).2),
         ("explanation", JValue.jStr
           ("根据关键词匹配，识别为" ++ agentDisplayName (pickMaxAux s0 rest).1))] := by
  rw [ruleBasedIntentRecognition, hsc]

theorem scoresFor_ne_nil (prompt : String) : scoresFor prompt ≠ [] := by
  simp [scoresFor, agentKeywords]

theorem ruleBased_agent_type_mem (prompt : String) :
    ∃ t ∈ agentTypeOrder,
      alookup (ruleBasedIntentRecognition prompt) "agent_type" =
        some (JValue.jStr t) := by
  cases hsc : scoresFor prompt with
  | nil => exact absurd hsc (scoresFor_ne_nil prompt)
  | cons s0 rest =>
      rw [ruleBased_eq_cons prompt s0 rest hsc]
      by_cases hz : (pickMaxAux s0 rest).2 = 0
      · rw [if_pos hz]
        exact ⟨"data_analysis", by decide, rfl⟩
      · rw [if_neg hz]
        refine ⟨(pickMaxAux s0 rest).1, ?_, by simp [alookup]⟩
        rw [← scoresFor_map_fst prompt, hsc]
        exact List.mem_map_of_mem _ (pickMaxAux_mem rest s0)

/-- C5 counterexample: a parsed payload carrying an *unrecognized*
category under `agent_type` is passed through unchanged by
`UserIntentAgent.execute` — the fallback only fires when the key is
missing, so the returned category is not from the known set of four. -/
theorem c5_counterexample :
    alookup (intentExecute [("agent_type", JValue.jStr "weather_forecast")]
        "预报一下天气") "agent_type" = some (JValue.jStr "weather_forecast") ∧
    "weather_forecast" ∉ agentTypeOrder := by
  exact ⟨by decide, by decide⟩

/-- C5 (amended): the deterministic fallback runs exactly when the
parsed payload is empty (parse failure) or lacks the `agent_type` key;
in that case the returned category comes from the fixed known set.  A
payload with an unrecognized value under `agent_type` is passed through
as is. -/
theorem c5_fallback_on_missing_key (parsed : JObj) (prompt : String) :
    ((parsed.isEmpty = true ∨ alookup parsed "agent_type" = none) →
      intentExecute parsed prompt =
        ainsert (ruleBasedIntentRecognition prompt) "user_prompt"
          (JValue.jStr prompt) ∧
      ∃ t ∈ agentTypeOrder,
        alookup (intentExecute parsed prompt) "agent_type" =
          some (JValue.jStr t)) ∧
    (¬ (parsed.isEmpty = true ∨ alookup parsed "agent_type" = none) →
      intentExecute parsed prompt =
        ainsert parsed "user_prompt" (JValue.jStr prompt)) := by
  constructor
  · intro hcond
    have hbool : (parsed.isEmpty || (alookup parsed "agent_type").isNone) = true := by
      rcases hcond with h | h
      · simp [h]
      · simp [h]
    have hexec : intentExecute parsed prompt =
        ainsert (ruleBasedIntentRecognition prompt) "user_prompt"
          (JValue.jStr prompt) := by
      rw [intentExecute]
      simp only [hbool, if_true]
    refine ⟨hexec, ?_⟩
    obtain ⟨t, ht, hlook⟩ := ruleBased_agent_type_mem prompt
    refine ⟨t, ht, ?_⟩
    rw [hexec, alookup_ainsert_ne _ _ _ _ (by decide)]
    exact hlook
  · intro hcond
    have h1 : ¬ parsed.isEmpty = true := fun h => hcond (Or.inl h)
    have h2 : ¬ alookup parsed "agent_type" = none := fun h => hcond (Or.inr h)
    have hbool : ¬ ((parsed.isEmpty || (alookup parsed "agent_type").isNone) = true) := by
      simp only [Bool.or_eq_true]
      rintro (h | h)
      · exact h1 h
      · exact h2 (Option.isNone_iff_eq_none.mp h)
    rw [intentExecute]
    simp only [if_neg hbool]

theorem c5_fallback_on_missing_key_witness :
    ([] : JObj).isEmpty = true ∧
    intentExecute [] "你好" =
      ainsert (ruleBasedIntentRecognition "你好") "user_prompt" (JValue.jStr "你好") ∧
    ∃ t ∈ agentTypeOrder,
      alookup (intentExecute [] "你好") "agent_type" = some (JValue.jStr t) := by
  have h := (c5_fallback_on_missing_key [] "你好").1 (Or.inl rfl)
  exact ⟨rfl, h.1, h.2⟩

/-! ## C6 — the deterministic fallback scorer -/
/-- C6: for every prompt the fallback scorer returns a category from the
fixed set.  When no keyword of any category matches, the result is
exactly the default (`data_analysis`, confidence 1/2).  Otherwise the
winner is the arg-max of the per-category scores with ties resolved to
the first category in enumeration order (everything before the winner
scores strictly lower), and the returned confidence equals
hits/keyword-count for the winning category and lies in [0, 1]. -/
theorem c6_rule_based_scorer_spec (prompt : String) :
    ((∀ q ∈ scoresFor prompt, q.2 = 0) →
      ruleBasedIntentRecognition prompt = defaultIntentResult ∧
      alookup defaultIntentResult "agent_type" = some (JValue.jStr "data_analysis") ∧
      alookup defaultIntentResult "confidence" = some (JValue.jNum (1 / 2))) ∧
    ((∃ q ∈ scoresFor prompt, q.2 ≠ 0) →
      ∃ w, w ∈ agentTypeOrder ∧
        alookup (ruleBasedIntentRecognition prompt) "agent_type" =
          some (JValue.jStr w) ∧
        alookup (ruleBasedIntentRecognition prompt) "confidence" =
          some (JValue.jNum
            ((hitsFor prompt (keywordsOf w) : ℚ) / ((keywordsOf w).length : ℚ))) ∧
        0 ≤ normScore prompt (keywordsOf w) ∧ normScore prompt (keywordsOf w) ≤ 1 ∧
        (∀ q ∈ scoresFor prompt, q.2 ≤ normScore prompt (keywordsOf w)) ∧
        ∃ pre post,
          scoresFor prompt = pre ++ (w, normScore prompt (keywordsOf w)) :: post ∧
          ∀ q ∈ pre, q.2 < normScore prompt (keywordsOf w)) := by
  cases hsc : scoresFor prompt with
  | nil => exact absurd hsc (scoresFor_ne_nil prompt)
  | cons s0 rest =>
      have hrb0 := ruleBased_eq_cons prompt s0 rest hsc
      have hmem : pickMaxAux s0 rest ∈ scoresFor prompt := by
        rw [hsc]; exact pickMaxAux_mem rest s0
      have hkey := scoresFor_keywords prompt _ hmem
      constructor
      · intro hall
        refine ⟨?_, rfl, rfl⟩
        rw [hrb0, if_pos (hall _ (by rw [← hsc]; exact hmem))]
      · intro hex
        have hnz : (pickMaxAux s0 rest).2 ≠ 0 := by
          obtain ⟨q, hq, hqnz⟩ := hex
          have hub : q.2 ≤ (pickMaxAux s0 rest).2 := pickMaxAux_ub rest s0 q hq
          have hq0 : 0 ≤ q.2 := by
            rw [scoresFor_keywords prompt q (by rw [hsc]; exact hq)]
            exact normScore_nonneg _ _
          intro h0
          rw [h0] at hub
          exact hqnz (le_antisymm hub hq0)
        have hrb : ruleBasedIntentRecognition prompt =
            [("agent_type", JValue.jStr (pickMaxAux s0 rest).1),
             ("confidence", JValue.jNum (pickMaxAux s0 rest).2),
             ("explanation", JValue.jStr
               ("根据关键词匹配，识别为" ++
                 agentDisplayName (pickMaxAux s0 rest).1))] := by
          rw [hrb0, if_neg hnz]
        refine ⟨(pickMaxAux s0 rest).1, ?_, ?_, ?_, normScore_nonneg _ _,
          normScore_le_one _ _, ?_, ?_⟩
        · rw [← scoresFor_map_fst prompt, hsc]
          exact List.mem_map_of_mem _ (pickMaxAux_mem rest s0)
        · rw [hrb]
          rfl
        · rw [hrb, ← normScore_eq, ← hkey]
          rfl
        · intro q hq
          rw [← hkey]
          exact pickMaxAux_ub rest s0 q hq
        · obtain ⟨pre, post, heq, hpre, _⟩ := pickMaxAux_split rest s0
          refine ⟨pre, post, ?_, ?_⟩
          · rw [← hkey, Prod.mk.eta]
            exact heq
          · intro q hq
            rw [← hkey]
            exact hpre q hq

theorem c6_rule_based_scorer_spec_witness :
    (∀ q ∈ scoresFor "hello", q.2 = 0) ∧
    ruleBasedIntentRecognition "hello" = defaultIntentResult ∧
    (∃ q ∈ scoresFor "帮我分析一下", q.2 ≠ 0) ∧
    ∃ w, w ∈ agentTypeOrder ∧
      alookup (ruleBasedIntentRecognition "帮我分析一下") "agent_type" =
        some (JValue.jStr w) := by
  have h1 := (c6_rule_based_scorer_spec "hello").1 (by decide)
  have hhits : hitsFor "帮我分析一下" (keywordsOf "data_analysis") = 1 := by decide
  have hlen : (keywordsOf "data_analysis").length = 11 := by decide
  have hex : ∃ q ∈ scoresFor "帮我分析一下", q.2 ≠ 0 := by
    refine ⟨("data_analysis",
      normScore "帮我分析一下" (keywordsOf "data_analysis")), ?_, ?_⟩
    · exact List.mem_cons_self _ _
    · rw [normScore_eq, hhits, hlen]
      norm_num
  have h2 := (c6_rule_based_scorer_spec "帮我分析一下").2 hex
  obtain ⟨w, hw, hlook, _⟩ := h2
  exact ⟨by decide, h1.1, hex, w, hw, hlook⟩

/-! ## C8 — code extraction from model replies -/
/-- C8: when the reply has fenced code blocks, extraction returns the
longest one (the first such on ties); with none, it falls back to the
longest textual `analyze_data` definition; with neither, the raw reply
is returned verbatim. -/
theorem c8_extraction_policy (resp : String) :
    (∀ m ms, findFenced resp.data = m :: ms →
      extractCodeFromResponse resp = ⟨pickLongest m ms⟩ ∧
      (extractCodeFromResponse resp).data ∈ findFenced resp.data ∧
      ∀ b ∈ findFenced resp.data,
        b.length ≤ (extractCodeFromResponse resp).data.length) ∧
    (findFenced resp.data = [] → ∀ m ms, findFnDefs resp.data = m :: ms →
      extractCodeFromResponse resp = ⟨pickLongest m ms⟩ ∧
      (extractCodeFromResponse resp).data ∈ findFnDefs resp.data ∧
      ∀ b ∈ findFnDefs resp.data,
        b.length ≤ (extractCodeFromResponse resp).data.length) ∧
    (findFenced resp.data = [] → findFnDefs resp.data = [] →
      extractCodeFromResponse resp = resp) := by
  refine ⟨?_, ?_, ?_⟩
  · intro m ms hf
    have hext : extractCodeFromResponse resp = ⟨pickLongest m ms⟩ := by
      rw [extractCodeFromResponse, hf]
    refine ⟨hext, ?_, ?_⟩
    · rw [hext, hf]
      exact pickLongest_mem ms m
    · intro b hb
      rw [hext]
      rw [hf] at hb
      exact pickLongest_ub ms m b hb
  · intro hnone m ms hf
    have hext : extractCodeFromResponse resp = ⟨pickLongest m ms⟩ := by
      rw [extractCodeFromResponse, hnone, hf]
    refine ⟨hext, ?_, ?_⟩
    · rw [hext, hf]
      exact pickLongest_mem ms m
    · intro b hb
      rw [hext]
      rw [hf] at hb
      exact pickLongest_ub ms m b hb
  · intro h1 h2
    rw [extractCodeFromResponse, h1, h2]

theorem c8_extraction_policy_witness :
    findFenced demoReply.data = [List.replicate 50 'a', List.replicate 120 'b'] ∧
    (List.replicate 50 'a').length = 50 ∧ (List.replicate 120 'b').length = 120 ∧
    extractCodeFromResponse demoReply = ⟨List.replicate 120 'b'⟩ := by
  have hf : findFenced demoReply.data =
      [List.replicate 50 'a', List.replicate 120 'b'] := by decide
  have h := (c8_extraction_policy demoReply).1 (List.replicate 50 'a')
    [List.replicate 120 'b'] hf
  refine ⟨hf, by decide, by decide, ?_⟩
  rw [h.1]
  decide

end S2P
